import Mathlib

/- A shallow embedding of the MazeLock simulation (mazelock.c): the grid data
   model, the constrained random generator (`randomize_matrix` with its
   `is_valid_open_cell_placement` test and the entry/exit border walk of
   `place_entry_exit_points`), and the recursive depth-first path search
   (`dfs` / `find_path`).  The C program's global `ROWS`/`COLS` become explicit
   parameters `R`/`C`; the C `rand()` stream becomes an explicit function
   `rnd : Nat → Nat` together with a running index; `double` comparisons
   become exact rational comparisons (`(v : ℚ) / RAND_MAX ≤ density`).
   The rejection-sampling loop for the exit position, which the C code runs
   without bound, is given explicit fuel and returns `Option`: `none` models
   the (probability-zero) executions in which the loop has not yet
   terminated.  The unbounded C recursion of `dfs` is modelled with fuel;
   the fuel-stability theorem below shows `ROWS * COLS + 1` units suffice,
   which is the fuel `find_path` passes. -/

namespace MazeLock

/-- Cell values, mirroring the character constants of the source
    (`ENTRY 'S'`, `EXIT 'E'`, `OPEN ' '`, `CLOSED 'X'`, `VISITED '.'`,
    `PATH 'P'`). -/
inductive Cell
  | OPEN
  | CLOSED
  | ENTRY
  | EXIT
  | VISITED
  | PATH
deriving DecidableEq, Repr

/-- The grid: cell values indexed by (row, column).  Only indices below the
    dimensions `R × C` are meaningful; the C array has no cells outside that
    range, and every operation below reads and writes only in-range cells. -/
def Grid : Type := Nat → Nat → Cell

/-- Write a single cell of the grid. -/
def setCell (g : Grid) (r c : Nat) (v : Cell) : Grid :=
  fun i j => if i = r ∧ j = c then v else g i j

/-- `row == 0 || row == ROWS - 1 || col == 0 || col == COLS - 1`. -/
abbrev onBorder (R C r c : Nat) : Prop :=
  r = 0 ∨ r = R - 1 ∨ c = 0 ∨ c = C - 1

/-- Row-major enumeration of all cell coordinates, the iteration order of
    every double `for` loop in the source. -/
def rowMajor (R C : Nat) : List (Nat × Nat) :=
  (List.range R).flatMap fun r => (List.range C).map fun c => (r, c)

/-- The border cells in row-major order: the cells at which
    `place_entry_exit_points`'s `counter` is incremented, in the order it
    visits them. -/
def borderList (R C : Nat) : List (Nat × Nat) :=
  (rowMajor R C).filter fun p => decide (onBorder R C p.1 p.2)

/-- `count_adjacent_open_cells`: the number of `OPEN` cells among the
    4-directional neighbours, with the same bounds guards as the source. -/
def count_adjacent_open_cells (R C : Nat) (g : Grid) (row col : Nat) : Nat :=
  (if 0 < row ∧ g (row - 1) col = Cell.OPEN then 1 else 0) +
  (if row < R - 1 ∧ g (row + 1) col = Cell.OPEN then 1 else 0) +
  (if 0 < col ∧ g row (col - 1) = Cell.OPEN then 1 else 0) +
  (if col < C - 1 ∧ g row (col + 1) = Cell.OPEN then 1 else 0)

/-- `is_valid_open_cell_placement`, transcribed check for check: reject a
    marker cell, more than one `OPEN` neighbour, a straight or diagonal
    3-in-line through the cell, or an axis-aligned `OPEN` pair at offsets
    ±1, ±2. -/
def is_valid_open_cell_placement (R C : Nat) (g : Grid) (row col : Nat) : Bool :=
  if g row col = Cell.ENTRY ∨ g row col = Cell.EXIT then false
  else if 1 < count_adjacent_open_cells R C g row col then false
  else if (0 < row ∧ row < R - 1 ∧
            g (row - 1) col = Cell.OPEN ∧ g (row + 1) col = Cell.OPEN) ∨
          (0 < col ∧ col < C - 1 ∧
            g row (col - 1) = Cell.OPEN ∧ g row (col + 1) = Cell.OPEN) ∨
          (0 < row ∧ row < R - 1 ∧ 0 < col ∧ col < C - 1 ∧
            g (row - 1) (col - 1) = Cell.OPEN ∧ g (row + 1) (col + 1) = Cell.OPEN) ∨
          (0 < row ∧ row < R - 1 ∧ 0 < col ∧ col < C - 1 ∧
            g (row - 1) (col + 1) = Cell.OPEN ∧ g (row + 1) (col - 1) = Cell.OPEN) then false
  else if 1 < row ∧ g (row - 2) col = Cell.OPEN ∧ g (row - 1) col = Cell.OPEN then false
  else if row < R - 2 ∧ g (row + 2) col = Cell.OPEN ∧ g (row + 1) col = Cell.OPEN then false
  else if 1 < col ∧ g row (col - 2) = Cell.OPEN ∧ g row (col - 1) = Cell.OPEN then false
  else if col < C - 2 ∧ g row (col + 2) = Cell.OPEN ∧ g row (col + 1) = Cell.OPEN then false
  else true

/-- `RAND_MAX` of the target platform (glibc): `2^31 - 1`. -/
def RAND_MAX : Nat := 2147483647

/-- The test `(double)rand() / (double)RAND_MAX <= density`, in exact
    rational arithmetic: `v / RAND_MAX ≤ density`.  It is evaluated in
    cleared-denominator form (the theorem `openDraw_eq_div_le` proves it
    equal to the rational comparison); this keeps the definition computable
    by kernel reduction. -/
def openDraw (density : ℚ) (v : Nat) : Bool :=
  decide ((v : Int) * (density.den : Int) ≤ density.num * (RAND_MAX : Int))

/-- One iteration of the fill loop of `randomize_matrix`: a border cell
    currently holding `ENTRY`/`EXIT` is skipped (`continue`, no `rand()`
    consumed); otherwise one random value is drawn and the cell is set
    `OPEN` exactly when the draw is at most `density` and
    `is_valid_open_cell_placement` accepts it, else `CLOSED`.
    The state is (grid, next random index). -/
def fill_step (R C : Nat) (density : ℚ) (rnd : Nat → Nat) :
    Grid × Nat → Nat × Nat → Grid × Nat :=
  fun s p =>
    let g := s.1
    let i := s.2
    let r := p.1
    let c := p.2
    if onBorder R C r c ∧ (g r c = Cell.ENTRY ∨ g r c = Cell.EXIT) then (g, i)
    else if openDraw density (rnd i) ∧ is_valid_open_cell_placement R C g r c then
      (setCell g r c Cell.OPEN, i + 1)
    else
      (setCell g r c Cell.CLOSED, i + 1)

/-- The fill loop of `randomize_matrix` over an explicit cell list (the
    program runs it over `rowMajor R C`). -/
def fill_fold (R C : Nat) (density : ℚ) (rnd : Nat → Nat)
    (s : Grid × Nat) (l : List (Nat × Nat)) : Grid × Nat :=
  l.foldl (fill_step R C density rnd) s

/-- The complete fill phase of `randomize_matrix`. -/
def fill_pass (R C : Nat) (density : ℚ) (rnd : Nat → Nat)
    (g : Grid) (i : Nat) : Grid × Nat :=
  fill_fold R C density rnd (g, i) (rowMajor R C)

/-- One step of the marker-locating scan of `randomize_matrix`: remember the
    position of an `ENTRY` (respectively `EXIT`) cell, overwriting any
    earlier find, so the scan keeps the last occurrence. -/
def track_step (g : Grid) :
    Option (Nat × Nat) × Option (Nat × Nat) → Nat × Nat →
    Option (Nat × Nat) × Option (Nat × Nat) :=
  fun s p =>
    if g p.1 p.2 = Cell.ENTRY then (some p, s.2)
    else if g p.1 p.2 = Cell.EXIT then (s.1, some p)
    else s

/-- The marker-locating scan over the whole grid. -/
def find_markers (R C : Nat) (g : Grid) :
    Option (Nat × Nat) × Option (Nat × Nat) :=
  (rowMajor R C).foldl (track_step g) (none, none)

/-- `if (entry_row != -1 && entry_col != -1) matrix[entry_row][entry_col] =
    CLOSED;` — overwrite the remembered position with `CLOSED`, only if one
    was found. -/
def clearAt (g : Grid) (o : Option (Nat × Nat)) : Grid :=
  match o with
  | some p => setCell g p.1 p.2 Cell.CLOSED
  | none => g

/-- Locate the previous pass's `ENTRY`/`EXIT` markers and overwrite each with
    `CLOSED` — only if found, exactly as in the source. -/
def clear_markers (R C : Nat) (g : Grid) : Grid :=
  clearAt (clearAt g (find_markers R C g).1) (find_markers R C g).2

/-- One step of the border walk of `place_entry_exit_points`: on a border
    cell, write `ENTRY` when the counter matches `entryPos` (and `ENTRY` has
    not been placed), else write `EXIT` when it matches `exitPos` (and `EXIT`
    has not been placed), then increment the counter.
    State: (grid, counter, entry_placed, exit_placed). -/
def place_step (R C entryPos exitPos : Nat) :
    Grid × Nat × Bool × Bool → Nat × Nat → Grid × Nat × Bool × Bool :=
  fun s p =>
    let g := s.1
    let k := s.2.1
    let eP := s.2.2.1
    let xP := s.2.2.2
    if onBorder R C p.1 p.2 then
      if k = entryPos ∧ eP = false then
        (setCell g p.1 p.2 Cell.ENTRY, k + 1, true, xP)
      else if k = exitPos ∧ xP = false then
        (setCell g p.1 p.2 Cell.EXIT, k + 1, eP, true)
      else (g, k + 1, eP, xP)
    else (g, k, eP, xP)

/-- `place_entry_exit_points` with the two drawn positions as parameters:
    the row-major walk that writes the two markers. -/
def place_entry_exit_points (R C : Nat) (g : Grid) (entryPos exitPos : Nat) : Grid :=
  ((rowMajor R C).foldl (place_step R C entryPos exitPos) (g, 0, false, false)).1

/-- `2 * (ROWS + COLS) - 4`, the perimeter length. -/
def edge_length (R C : Nat) : Nat := 2 * (R + C) - 4

/-- The `do { exit_position = rand() % edge_length; } while (exit_position ==
    entry_position)` loop, with fuel: returns the drawn exit position and the
    next random index, or `none` if the loop has not terminated within
    `fuel` draws. -/
def sample_exit (rnd : Nat → Nat) (L entryPos : Nat) : Nat → Nat → Option (Nat × Nat)
  | _, 0 => none
  | i, fuel + 1 =>
    if rnd i % L = entryPos then sample_exit rnd L entryPos (i + 1) fuel
    else some (rnd i % L, i + 1)

/-- `randomize_matrix`: fill phase, marker-locating-and-clearing phase, then
    `place_entry_exit_points` on freshly drawn positions.  Returns the new
    grid and the next random index (`none` only when the exit-position
    rejection loop exhausts its fuel). -/
def randomize_matrix (R C : Nat) (density : ℚ) (rnd : Nat → Nat)
    (g : Grid) (i fuel : Nat) : Option (Grid × Nat) :=
  match sample_exit rnd (edge_length R C)
      (rnd (fill_pass R C density rnd g i).2 % edge_length R C)
      ((fill_pass R C density rnd g i).2 + 1) fuel with
  | none => none
  | some ex =>
    some (place_entry_exit_points R C (clear_markers R C (fill_pass R C density rnd g i).1)
      (rnd (fill_pass R C density rnd g i).2 % edge_length R C) ex.1, ex.2)

/-- The reset loop of `generate_matrix`: every in-range cell becomes
    `CLOSED`. -/
def resetGrid (R C : Nat) (g : Grid) : Grid :=
  fun r c => if r < R ∧ c < C then Cell.CLOSED else g r c

/-- `generate_matrix`: full reset to `CLOSED`, then `randomize_matrix`.
    The generation worker calls this once, for its first pass only; every
    later pass calls `randomize_matrix` directly. -/
def generate_matrix (R C : Nat) (density : ℚ) (rnd : Nat → Nat)
    (g : Grid) (i fuel : Nat) : Option (Grid × Nat) :=
  randomize_matrix R C density rnd (resetGrid R C g) i fuel

/-- The `Path` structure of the source: C `int` coordinates and a found
    flag. -/
structure Path where
  start_x : Int
  start_y : Int
  end_x : Int
  end_y : Int
  found : Bool
deriving DecidableEq, Repr

/-- `Path path = {.found = false};` — designated initializer semantics:
    remaining fields zero. -/
def noPath : Path := ⟨0, 0, 0, 0, false⟩

/-- The recursive `dfs`, with explicit fuel (the C recursion is unbounded;
    the stability theorem below shows any fuel beyond `R * C` gives the same
    result).  Coordinates are `Int`, as in C, so stepping off row 0 yields
    −1 and is caught by the bounds test.  The four recursive calls are
    evaluated before the selection loop, in declaration order up, down,
    left, right, each acting on the grid left by the previous; the selection
    then takes the first direction that reported success. -/
def dfsFuel (R C : Nat) : Nat → Grid → Int → Int → Path × Grid
  | 0, g, _, _ => (noPath, g)
  | fuel + 1, g, row, col =>
    if row < 0 ∨ (R : Int) ≤ row ∨ col < 0 ∨ (C : Int) ≤ col then (noPath, g)
    else
      let r := row.toNat
      let c := col.toNat
      if g r c = Cell.EXIT then (⟨row, col, row, col, true⟩, g)
      else if g r c = Cell.CLOSED ∨ g r c = Cell.VISITED then (noPath, g)
      else
        let g0 := setCell g r c Cell.VISITED
        let U := dfsFuel R C fuel g0 (row - 1) col
        let D := dfsFuel R C fuel U.2 (row + 1) col
        let L := dfsFuel R C fuel D.2 row (col - 1)
        let Rp := dfsFuel R C fuel L.2 row (col + 1)
        let res :=
          if U.1.found then ⟨row, col, U.1.end_x, U.1.end_y, true⟩
          else if D.1.found then ⟨row, col, D.1.end_x, D.1.end_y, true⟩
          else if L.1.found then ⟨row, col, L.1.end_x, L.1.end_y, true⟩
          else if Rp.1.found then ⟨row, col, Rp.1.end_x, Rp.1.end_y, true⟩
          else noPath
        (res, Rp.2)

/-- The entry-locating scan of `find_path`: first border cell holding
    `ENTRY`, in row-major order (the scan breaks at the first match). -/
def findEntry (R C : Nat) (g : Grid) : Option (Nat × Nat) :=
  (rowMajor R C).find? fun p =>
    decide (onBorder R C p.1 p.2) && decide (g p.1 p.2 = Cell.ENTRY)

/-- The three observable outcomes of `find_path`: the three distinct
    messages the source prints. -/
inductive SearchOutcome
  | entryNotFound
  | noPathFound
  | found (p : Path)
deriving DecidableEq, Repr

/-- `find_path`: locate the entry on the border; if absent report
    `entryNotFound`; otherwise run `dfs` from it (with sufficient fuel,
    `R * C + 1`) and report the path or `noPathFound`.  Also returns the
    mutated grid (the `VISITED` markings `dfs` left behind). -/
def find_path (R C : Nat) (g : Grid) : SearchOutcome × Grid :=
  match findEntry R C g with
  | none => (SearchOutcome.entryNotFound, g)
  | some p =>
    let d := dfsFuel R C (R * C + 1) g (p.1 : Int) (p.2 : Int)
    (if d.1.found then SearchOutcome.found d.1 else SearchOutcome.noPathFound, d.2)

/-! ### Concrete inputs used by witnesses and counterexamples -/

/-- The all-`CLOSED` grid. -/
def closedGrid : Grid := fun _ _ => Cell.CLOSED

/-- A random stream for a 2×2 pass: all draws are `RAND_MAX` except index 3
    (the exit-position draw), which is 1. -/
def sC1 : Nat → Nat := fun k => if k = 3 then 1 else RAND_MAX

/-- A random stream for a 2×2 pass over a marker-free grid (four fill
    draws): all draws are `RAND_MAX` except index 5 (the exit-position
    draw), which is 1. -/
def sW1 : Nat → Nat := fun k => if k = 5 then 1 else RAND_MAX

/-- A previous grid carrying two leftover border `ENTRY` markers — content
    the claim's "regardless of previous cell contents" must cover. -/
def gTwoEntries : Grid := setCell (setCell closedGrid 0 0 Cell.ENTRY) 0 1 Cell.ENTRY

/-- A 5×5 stream: draws open the cells scanned 12th, 13th and 17th
    ((2,2), (2,3), (3,2)); index 26 resolves the exit-position rejection. -/
def sC2 : Nat → Nat :=
  fun k => if k = 12 ∨ k = 13 ∨ k = 17 then 0 else if k = 26 then 1 else RAND_MAX

/-- The grid built by the 5×5 pass over `sC2`. -/
def GC2 : Grid := ((randomize_matrix 5 5 (Rat.divInt 1 2) sC2 closedGrid 0 5).getD (closedGrid, 0)).1

/-- A 3×3 stream: draws open the cells scanned 3rd and 6th ((0,2), (1,2));
    index 10 resolves the exit-position rejection. -/
def sC3 : Nat → Nat :=
  fun k => if k = 2 ∨ k = 5 then 0 else if k = 10 then 1 else RAND_MAX

/-- A previous grid with a single leftover `OPEN` cell at (2,2) — a cell
    later in row-major order than (1,2). -/
def gLeftover : Grid := setCell closedGrid 2 2 Cell.OPEN


/-- The grid of the concrete 3×3 search scenario: `ENTRY` at (1,0), `EXIT`
    at (0,0) (directly above the entry), one `OPEN` cell at (1,1) reachable
    only through the entry's fourth (right) direction. -/
def g5 : Grid := setCell (setCell (setCell closedGrid 1 0 Cell.ENTRY) 0 0 Cell.EXIT) 1 1 Cell.OPEN

/-- A 2×2 grid with `ENTRY` at (0,0) and `EXIT` at (0,1). -/
def gW4 : Grid := setCell (setCell closedGrid 0 0 Cell.ENTRY) 0 1 Cell.EXIT

/-- A 2×2 grid with `ENTRY` at (0,0) and `EXIT` at (1,1). -/
def gW10 : Grid := setCell (setCell closedGrid 0 0 Cell.ENTRY) 1 1 Cell.EXIT

/-- A 5×5 stream for density 0 whose very first draw is 0 — the only draw
    value `v` with `v / RAND_MAX ≤ 0`. -/
def sC8 : Nat → Nat := fun k => if k = 0 then 0 else if k = 26 then 1 else RAND_MAX

/-- A 5×5 stream for density 0 with every draw nonzero. -/
def sW8 : Nat → Nat := fun k => if k = 26 then 1 else RAND_MAX

/-- The claim that the searcher's reported start coordinates can differ
    from the located entry cell's coordinates on some grid with a found
    path.  Refuted below: the outermost recursion level — the entry —
    overwrites the `start` field last. -/
def C4_claim : Prop :=
  ∃ (R C : Nat) (g : Grid) (er ec : Nat) (p : Path),
    findEntry R C g = some (er, ec) ∧
    (find_path R C g).1 = SearchOutcome.found p ∧
    ¬(p.start_x = (er : Int) ∧ p.start_y = (ec : Int))

/-! ### Iteration-order basics -/

theorem openDraw_eq_div_le (density : ℚ) (v : Nat) :
    openDraw density v = decide ((v : ℚ) / (RAND_MAX : ℚ) ≤ density) := by
  unfold openDraw
  rw [decide_eq_decide]
  have hRM : (0 : ℚ) < ((RAND_MAX : Nat) : ℚ) := by norm_num [RAND_MAX]
  have hden : (0 : ℚ) < ((density.den : Nat) : ℚ) := by exact_mod_cast density.den_pos
  constructor
  · intro h
    rw [div_le_iff₀ hRM, ← Rat.num_div_den density, div_mul_eq_mul_div, le_div_iff₀ hden]
    have h2 : (((v : Int) * (density.den : Int) : Int) : ℚ) ≤
        ((density.num * (RAND_MAX : Int) : Int) : ℚ) := by exact_mod_cast h
    push_cast at h2 ⊢
    exact h2
  · intro h
    rw [div_le_iff₀ hRM, ← Rat.num_div_den density, div_mul_eq_mul_div, le_div_iff₀ hden] at h
    exact_mod_cast h

theorem openDraw_zero {v : Nat} (hv : v ≠ 0) : openDraw 0 v = false := by
  unfold openDraw
  rw [decide_eq_false_iff_not]
  intro h
  rw [show ((0 : ℚ).den : Int) = 1 from rfl, show (0 : ℚ).num = 0 from rfl, zero_mul,
    mul_one] at h
  omega


theorem mem_rowMajor {R C : Nat} {p : Nat × Nat} :
    p ∈ rowMajor R C ↔ p.1 < R ∧ p.2 < C := by
  cases p with
  | mk r c =>
    simp only [rowMajor, List.mem_flatMap, List.mem_map, List.mem_range]
    constructor
    · rintro ⟨a, ha, b, hb, h⟩
      cases h
      exact ⟨ha, hb⟩
    · rintro ⟨hr, hc⟩
      exact ⟨r, hr, c, hc, rfl⟩

theorem nodup_rowMajor (R C : Nat) : (rowMajor R C).Nodup := by
  refine List.nodup_flatMap.2 ⟨fun r _ => ?_, ?_⟩
  · exact (List.nodup_range C).map fun a b h => congrArg Prod.snd h
  · refine List.Pairwise.imp ?_ (List.nodup_range R)
    intro a b hab p hpa hpb
    simp only [List.mem_map] at hpa hpb
    obtain ⟨ca, -, hca⟩ := hpa
    obtain ⟨cb, -, hcb⟩ := hpb
    exact hab (congrArg Prod.fst (hca.trans hcb.symm))

theorem length_rowMajor (R C : Nat) : (rowMajor R C).length = R * C := by
  simp only [rowMajor, List.length_flatMap]
  have h : (List.map (List.length ∘ fun r => (List.range C).map fun c => (r, c))
      (List.range R)) = List.replicate R C := by
    rw [show (List.length ∘ fun r => (List.range C).map fun c => (r, c)) =
        Function.const Nat C from funext fun r => by simp]
    rw [List.map_const, List.length_range]
  rw [h, List.sum_replicate, smul_eq_mul]

theorem nodup_borderList (R C : Nat) : (borderList R C).Nodup :=
  (nodup_rowMajor R C).filter _

theorem mem_borderList {R C : Nat} {p : Nat × Nat} :
    p ∈ borderList R C ↔ (p.1 < R ∧ p.2 < C) ∧ onBorder R C p.1 p.2 := by
  simp only [borderList, List.mem_filter, mem_rowMajor, decide_eq_true_eq]

/-! ### Generic list helpers -/

theorem filter_eq_single {α : Type} {l : List α} {P : α → Bool} {p0 : α}
    (hnd : l.Nodup) (hmem : p0 ∈ l) (hP : ∀ q ∈ l, P q = true ↔ q = p0) :
    l.filter P = [p0] := by
  induction l with
  | nil => cases hmem
  | cons a t ih =>
    by_cases hap : a = p0
    · subst hap
      rw [List.filter_cons, if_pos ((hP a (by simp)).2 rfl)]
      have ht : t.filter P = [] := by
        refine List.filter_eq_nil_iff.2 fun q hq hPq => ?_
        have hq0 := (hP q (List.mem_cons_of_mem a hq)).1 hPq
        subst hq0
        exact (List.nodup_cons.1 hnd).1 hq
      rw [ht]
    · have hmem' : p0 ∈ t := by
        rcases List.mem_cons.1 hmem with h | h
        · exact absurd h.symm hap
        · exact h
      have ha : P a = false := by
        cases h : P a
        · rfl
        · exact absurd ((hP a (by simp)).1 h) hap
      rw [List.filter_cons, if_neg (by simp [ha])]
      exact ih (List.nodup_cons.1 hnd).2 hmem' fun q hq => hP q (List.mem_cons_of_mem a hq)

theorem length_filter_lt {α : Type} {l : List α} {P Q : α → Bool} {p0 : α}
    (himp : ∀ q ∈ l, Q q = true → P q = true) (hmem : p0 ∈ l)
    (hP : P p0 = true) (hQ : Q p0 = false) :
    (l.filter Q).length < (l.filter P).length := by
  induction l with
  | nil => cases hmem
  | cons a t ih =>
    have hmono : (t.filter Q).length ≤ (t.filter P).length := by
      rw [← List.countP_eq_length_filter, ← List.countP_eq_length_filter]
      exact List.countP_mono_left fun q hq => himp q (List.mem_cons_of_mem a hq)
    by_cases hap : a = p0
    · subst hap
      rw [List.filter_cons, List.filter_cons, if_pos hP, if_neg (by simp [hQ])]
      exact Nat.lt_succ_of_le hmono
    · have hmem' : p0 ∈ t := by
        rcases List.mem_cons.1 hmem with h | h
        · exact absurd h.symm hap
        · exact h
      have hlt := ih (fun q hq => himp q (List.mem_cons_of_mem a hq)) hmem'
      rw [List.filter_cons, List.filter_cons]
      cases hQa : Q a
      · rw [if_neg (by simp)]
        split
        · exact Nat.lt_succ_of_lt hlt
        · exact hlt
      · rw [if_pos rfl, if_pos (himp a (by simp) hQa)]
        exact Nat.succ_lt_succ hlt

theorem count_range_eq (a n : Nat) :
    (List.range n).count a = if a < n then 1 else 0 := by
  induction n with
  | zero => simp
  | succ n ih =>
    rw [List.range_succ, List.count_append, ih, List.count_singleton]
    by_cases h : a = n
    · subst h
      simp [Nat.lt_irrefl, Nat.lt_succ_self]
    · have hne : (n == a) = false := by simp [Ne.symm h]
      rw [hne]
      simp only [Bool.false_eq_true, if_false]
      by_cases h2 : a < n
      · rw [if_pos h2, if_pos (by omega)]
      · rw [if_neg h2, if_neg (by omega)]

theorem countP_or_eq_count_add {l : List Nat} {a b : Nat} (hab : a ≠ b) :
    (l.countP fun x => decide (x = a ∨ x = b)) = l.count a + l.count b := by
  induction l with
  | nil => simp
  | cons x t ih =>
    rw [List.countP_cons, List.count_cons, List.count_cons, ih]
    by_cases hxa : x = a
    · subst hxa
      rw [if_pos (by simp), if_pos (by simp), if_neg (by simp [hab])]
      omega
    · by_cases hxb : x = b
      · subst hxb
        rw [if_pos (by simp), if_neg (by simp [hxa]), if_pos (by simp)]
        omega
      · rw [if_neg (by simp [hxa, hxb]), if_neg (by simp [hxa]), if_neg (by simp [hxb])]
        omega

theorem sum_map_ite {α : Type} {l : List α} {P : α → Bool} {a b : Nat} (hba : b ≤ a) :
    (l.map fun x => if P x then a else b).sum = b * l.length + (a - b) * l.countP P := by
  induction l with
  | nil => simp
  | cons x t ih =>
    rw [List.map_cons, List.sum_cons, ih, List.countP_cons, List.length_cons]
    by_cases h : P x = true
    · rw [if_pos h, if_pos h, Nat.mul_succ, Nat.mul_add, Nat.mul_one]
      generalize b * t.length = X
      generalize (a - b) * t.countP P = Y
      omega
    · rw [if_neg h, if_neg h]
      simp only [Nat.add_zero]
      rw [Nat.mul_succ]
      generalize b * t.length = X
      generalize (a - b) * t.countP P = Y
      omega

/-! ### The border walk visits exactly `2 * (R + C) - 4` cells -/

theorem countP_border_row_middle {R C r : Nat} (hC : 2 ≤ C) (h0 : 0 < r) (h1 : r < R - 1) :
    ((List.range C).countP fun c => decide (onBorder R C r c)) = 2 := by
  have hcongr : ((List.range C).countP fun c => decide (onBorder R C r c)) =
      (List.range C).countP fun c => decide (c = 0 ∨ c = C - 1) := by
    refine List.countP_congr fun c _ => ?_
    simp only [decide_eq_true_eq, onBorder]
    omega
  rw [hcongr, countP_or_eq_count_add (by omega), count_range_eq, count_range_eq,
    if_pos (by omega), if_pos (by omega)]

theorem length_borderList {R C : Nat} (hR : 2 ≤ R) (hC : 2 ≤ C) :
    (borderList R C).length = edge_length R C := by
  rw [borderList, rowMajor, List.filter_flatMap, List.length_flatMap]
  have hmap : List.map
      (List.length ∘ fun r =>
        List.filter (fun p => decide (onBorder R C p.1 p.2)) ((List.range C).map fun c => (r, c)))
      (List.range R) =
      List.map (fun r => if decide (r = 0 ∨ r = R - 1) then C else 2) (List.range R) := by
    refine List.map_congr_left fun r hr => ?_
    have hrR : r < R := List.mem_range.1 hr
    show (List.filter (fun p => decide (onBorder R C p.1 p.2))
        ((List.range C).map fun c => (r, c))).length =
      if decide (r = 0 ∨ r = R - 1) then C else 2
    rw [← List.countP_eq_length_filter, List.countP_map]
    have hbeta : ((List.range C).countP ((fun p => decide (onBorder R C p.1 p.2)) ∘ fun c => (r, c)))
        = (List.range C).countP fun c => decide (onBorder R C r c) :=
      List.countP_congr fun c _ => Iff.rfl
    rw [hbeta]
    by_cases h : r = 0 ∨ r = R - 1
    · rw [if_pos (by simpa using h)]
      refine Eq.trans (List.countP_eq_length.2 fun c _ => ?_) (List.length_range C)
      refine decide_eq_true ?_
      rcases h with h | h
      · exact Or.inl h
      · exact Or.inr (Or.inl h)
    · rw [if_neg (by simpa using h)]
      exact countP_border_row_middle hC (by omega) (by omega)
  rw [hmap, sum_map_ite hC, List.length_range,
    countP_or_eq_count_add (by omega), count_range_eq, count_range_eq,
    if_pos (by omega), if_pos (by omega)]
  unfold edge_length
  omega

/-! ### The fill phase of `randomize_matrix` -/

theorem setCell_self (g : Grid) (r c : Nat) (v : Cell) : setCell g r c v r c = v :=
  if_pos ⟨rfl, rfl⟩

theorem setCell_ne {g : Grid} {r c i j : Nat} {v : Cell} (h : ¬(i = r ∧ j = c)) :
    setCell g r c v i j = g i j :=
  if_neg h

theorem fill_step_untouched {R C : Nat} {ρ : ℚ} {rnd : Nat → Nat} {s : Grid × Nat}
    {p q : Nat × Nat} (h : q ≠ p) :
    (fill_step R C ρ rnd s p).1 q.1 q.2 = s.1 q.1 q.2 := by
  have hne : ¬(q.1 = p.1 ∧ q.2 = p.2) := fun hh => h (Prod.ext_iff.2 hh)
  unfold fill_step
  dsimp only
  split
  · rfl
  · split
    · exact setCell_ne hne
    · exact setCell_ne hne

theorem fill_fold_untouched {R C : Nat} {ρ : ℚ} {rnd : Nat → Nat}
    {l : List (Nat × Nat)} {s : Grid × Nat} {q : Nat × Nat} (h : q ∉ l) :
    (fill_fold R C ρ rnd s l).1 q.1 q.2 = s.1 q.1 q.2 := by
  induction l generalizing s with
  | nil => rfl
  | cons p t ih =>
    have h1 : q ≠ p := fun hh => h (hh ▸ List.mem_cons_self ..)
    have h2 : q ∉ t := fun hh => h (List.mem_cons_of_mem p hh)
    show (fill_fold R C ρ rnd (fill_step R C ρ rnd s p) t).1 q.1 q.2 = s.1 q.1 q.2
    rw [ih h2]
    exact fill_step_untouched h1

theorem fill_pass_at {R C : Nat} {ρ : ℚ} {rnd : Nat → Nat} {g0 : Grid} {i0 : Nat}
    {pre post : List (Nat × Nat)} {r c : Nat}
    (hdec : rowMajor R C = pre ++ (r, c) :: post) :
    (fill_pass R C ρ rnd g0 i0).1 r c =
      if onBorder R C r c ∧ (g0 r c = Cell.ENTRY ∨ g0 r c = Cell.EXIT) then g0 r c
      else if openDraw ρ (rnd (fill_fold R C ρ rnd (g0, i0) pre).2) ∧
          is_valid_open_cell_placement R C (fill_fold R C ρ rnd (g0, i0) pre).1 r c then
        Cell.OPEN
      else Cell.CLOSED := by
  have hnd := nodup_rowMajor R C
  rw [hdec] at hnd
  obtain ⟨hndpre, hndcons, hdisj⟩ := List.nodup_append.1 hnd
  have hpre : (r, c) ∉ pre := fun hm => hdisj hm (List.mem_cons_self ..)
  have hpost : (r, c) ∉ post := (List.nodup_cons.1 hndcons).1
  have huntpre : (fill_fold R C ρ rnd (g0, i0) pre).1 r c = g0 r c :=
    fill_fold_untouched hpre
  unfold fill_pass
  rw [hdec, fill_fold, List.foldl_append, List.foldl_cons]
  have hstep : (fill_fold R C ρ rnd
      (fill_step R C ρ rnd (List.foldl (fill_step R C ρ rnd) (g0, i0) pre) (r, c)) post).1 r c =
      (fill_step R C ρ rnd (List.foldl (fill_step R C ρ rnd) (g0, i0) pre) (r, c)).1 r c :=
    fill_fold_untouched hpost
  show (fill_fold R C ρ rnd
      (fill_step R C ρ rnd (List.foldl (fill_step R C ρ rnd) (g0, i0) pre) (r, c)) post).1 r c = _
  rw [hstep]
  show (fill_step R C ρ rnd (fill_fold R C ρ rnd (g0, i0) pre) (r, c)).1 r c = _
  unfold fill_step
  dsimp only
  rw [huntpre]
  split
  · exact huntpre
  · split
    · exact setCell_self ..
    · exact setCell_self ..

theorem fill_pass_marker {R C : Nat} {ρ : ℚ} {rnd : Nat → Nat} {g0 : Grid} {i0 : Nat}
    {r c : Nat} {v : Cell} (hr : r < R) (hc : c < C)
    (hv : v = Cell.ENTRY ∨ v = Cell.EXIT) :
    (fill_pass R C ρ rnd g0 i0).1 r c = v ↔ onBorder R C r c ∧ g0 r c = v := by
  have hmem : ((r, c) : Nat × Nat) ∈ rowMajor R C := mem_rowMajor.2 ⟨hr, hc⟩
  obtain ⟨pre, post, hdec⟩ := List.append_of_mem hmem
  rw [fill_pass_at hdec]
  split
  case isTrue h =>
    exact ⟨fun hh => ⟨h.1, hh⟩, fun hh => hh.2⟩
  case isFalse h =>
    have hrhs : ¬(onBorder R C r c ∧ g0 r c = v) := fun hh =>
      h ⟨hh.1, by rcases hv with hv | hv <;> rw [hv] at hh <;> [exact Or.inl hh.2; exact Or.inr hh.2]⟩
    split
    · constructor
      · intro hh
        exfalso
        rcases hv with hv | hv <;> rw [hv] at hh <;> cases hh
      · intro hh
        exact absurd hh hrhs
    · constructor
      · intro hh
        exfalso
        rcases hv with hv | hv <;> rw [hv] at hh <;> cases hh
      · intro hh
        exact absurd hh hrhs

theorem fill_pass_open_valid {R C : Nat} {ρ : ℚ} {rnd : Nat → Nat} {g0 : Grid} {i0 : Nat}
    {pre post : List (Nat × Nat)} {r c : Nat}
    (hdec : rowMajor R C = pre ++ (r, c) :: post)
    (hopen : (fill_pass R C ρ rnd g0 i0).1 r c = Cell.OPEN) :
    is_valid_open_cell_placement R C (fill_fold R C ρ rnd (g0, i0) pre).1 r c = true := by
  rw [fill_pass_at hdec] at hopen
  split at hopen
  case isTrue h =>
    rcases h.2 with hh | hh <;> rw [hh] at hopen <;> cases hopen
  case isFalse h =>
    split at hopen
    case isTrue h2 => exact h2.2
    case isFalse h2 => cases hopen

theorem fill_pass_closed {R C : Nat} {ρ : ℚ} {rnd : Nat → Nat} {g0 : Grid} {i0 : Nat}
    {r c : Nat} (hr : r < R) (hc : c < C)
    (hnm : ¬(onBorder R C r c ∧ (g0 r c = Cell.ENTRY ∨ g0 r c = Cell.EXIT)))
    (hdraw : ∀ k, openDraw ρ (rnd k) = false) :
    (fill_pass R C ρ rnd g0 i0).1 r c = Cell.CLOSED := by
  have hmem : ((r, c) : Nat × Nat) ∈ rowMajor R C := mem_rowMajor.2 ⟨hr, hc⟩
  obtain ⟨pre, post, hdec⟩ := List.append_of_mem hmem
  rw [fill_pass_at hdec, if_neg hnm, if_neg]
  intro hh
  rw [hdraw _] at hh
  cases hh.1

/-! ### The marker-locating-and-clearing phase -/

theorem track_fold_fst_of_no_entry {g : Grid} {l : List (Nat × Nat)}
    {s : Option (Nat × Nat) × Option (Nat × Nat)}
    (h : ∀ p ∈ l, g p.1 p.2 ≠ Cell.ENTRY) :
    (l.foldl (track_step g) s).1 = s.1 := by
  induction l generalizing s with
  | nil => rfl
  | cons p t ih =>
    rw [List.foldl_cons, ih fun q hq => h q (List.mem_cons_of_mem p hq)]
    unfold track_step
    rw [if_neg (h p (List.mem_cons_self ..))]
    split <;> rfl

theorem track_fold_snd_of_no_exit {g : Grid} {l : List (Nat × Nat)}
    {s : Option (Nat × Nat) × Option (Nat × Nat)}
    (h : ∀ p ∈ l, g p.1 p.2 ≠ Cell.EXIT) :
    (l.foldl (track_step g) s).2 = s.2 := by
  induction l generalizing s with
  | nil => rfl
  | cons p t ih =>
    rw [List.foldl_cons, ih fun q hq => h q (List.mem_cons_of_mem p hq)]
    unfold track_step
    split
    · rfl
    · rw [if_neg (h p (List.mem_cons_self ..))]

theorem track_fold_fst_unique {g : Grid} {l : List (Nat × Nat)}
    {s : Option (Nat × Nat) × Option (Nat × Nat)} {p0 : Nat × Nat}
    (hnd : l.Nodup) (hmem : p0 ∈ l) (hE : g p0.1 p0.2 = Cell.ENTRY)
    (huniq : ∀ q ∈ l, g q.1 q.2 = Cell.ENTRY → q = p0) :
    (l.foldl (track_step g) s).1 = some p0 := by
  induction l generalizing s with
  | nil => cases hmem
  | cons p t ih =>
    rw [List.foldl_cons]
    by_cases hp : p = p0
    · subst hp
      have hnone : ∀ q ∈ t, g q.1 q.2 ≠ Cell.ENTRY := fun q hq hEq =>
        (List.nodup_cons.1 hnd).1 ((huniq q (List.mem_cons_of_mem _ hq) hEq) ▸ hq)
      rw [track_fold_fst_of_no_entry hnone]
      unfold track_step
      rw [if_pos hE]
    · have hmem' : p0 ∈ t := by
        rcases List.mem_cons.1 hmem with h | h
        · exact absurd h.symm hp
        · exact h
      exact ih (List.nodup_cons.1 hnd).2 hmem'
        fun q hq hEq => huniq q (List.mem_cons_of_mem _ hq) hEq

theorem track_fold_snd_unique {g : Grid} {l : List (Nat × Nat)}
    {s : Option (Nat × Nat) × Option (Nat × Nat)} {p0 : Nat × Nat}
    (hnd : l.Nodup) (hmem : p0 ∈ l) (hX : g p0.1 p0.2 = Cell.EXIT)
    (huniq : ∀ q ∈ l, g q.1 q.2 = Cell.EXIT → q = p0) :
    (l.foldl (track_step g) s).2 = some p0 := by
  induction l generalizing s with
  | nil => cases hmem
  | cons p t ih =>
    rw [List.foldl_cons]
    by_cases hp : p = p0
    · subst hp
      have hnone : ∀ q ∈ t, g q.1 q.2 ≠ Cell.EXIT := fun q hq hXq =>
        (List.nodup_cons.1 hnd).1 ((huniq q (List.mem_cons_of_mem _ hq) hXq) ▸ hq)
      rw [track_fold_snd_of_no_exit hnone]
      unfold track_step
      rw [if_neg (by rw [hX]; intro hh; cases hh), if_pos hX]
    · have hmem' : p0 ∈ t := by
        rcases List.mem_cons.1 hmem with h | h
        · exact absurd h.symm hp
        · exact h
      exact ih (List.nodup_cons.1 hnd).2 hmem'
        fun q hq hXq => huniq q (List.mem_cons_of_mem _ hq) hXq

theorem track_fold_fst_sound {g : Grid} {l : List (Nat × Nat)}
    {s : Option (Nat × Nat) × Option (Nat × Nat)} {q : Nat × Nat}
    (h : (l.foldl (track_step g) s).1 = some q) :
    s.1 = some q ∨ g q.1 q.2 = Cell.ENTRY := by
  induction l generalizing s with
  | nil => exact Or.inl h
  | cons p t ih =>
    rw [List.foldl_cons] at h
    rcases ih h with h1 | h1
    · unfold track_step at h1
      split at h1
      case isTrue hc =>
        injection h1 with h2
        exact Or.inr (h2 ▸ hc)
      case isFalse =>
        split at h1
        · exact Or.inl h1
        · exact Or.inl h1
    · exact Or.inr h1

theorem track_fold_snd_sound {g : Grid} {l : List (Nat × Nat)}
    {s : Option (Nat × Nat) × Option (Nat × Nat)} {q : Nat × Nat}
    (h : (l.foldl (track_step g) s).2 = some q) :
    s.2 = some q ∨ g q.1 q.2 = Cell.EXIT := by
  induction l generalizing s with
  | nil => exact Or.inl h
  | cons p t ih =>
    rw [List.foldl_cons] at h
    rcases ih h with h1 | h1
    · unfold track_step at h1
      split at h1
      · exact Or.inl h1
      · split at h1
        case isTrue hc =>
          injection h1 with h2
          exact Or.inr (h2 ▸ hc)
        case isFalse => exact Or.inl h1
    · exact Or.inr h1

theorem clearAt_values (g : Grid) (o : Option (Nat × Nat)) (i j : Nat) :
    clearAt g o i j = g i j ∨ clearAt g o i j = Cell.CLOSED := by
  cases o with
  | none => exact Or.inl rfl
  | some p =>
    show setCell g p.1 p.2 Cell.CLOSED i j = g i j ∨
      setCell g p.1 p.2 Cell.CLOSED i j = Cell.CLOSED
    unfold setCell
    split
    · exact Or.inr rfl
    · exact Or.inl rfl

theorem clear_markers_values (R C : Nat) (g : Grid) (i j : Nat) :
    clear_markers R C g i j = g i j ∨ clear_markers R C g i j = Cell.CLOSED := by
  unfold clear_markers
  rcases clearAt_values (clearAt g (find_markers R C g).1) (find_markers R C g).2 i j with h | h
  · rw [h]
    exact clearAt_values ..
  · exact Or.inr h

theorem clear_markers_preserves {R C : Nat} {g : Grid} {i j : Nat}
    (hE : g i j ≠ Cell.ENTRY) (hX : g i j ≠ Cell.EXIT) :
    clear_markers R C g i j = g i j := by
  unfold clear_markers
  have h1 : clearAt g (find_markers R C g).1 i j = g i j := by
    rcases hm : (find_markers R C g).1 with - | q
    · rfl
    · refine setCell_ne ?_
      intro hij
      rcases track_fold_fst_sound hm with h | h
      · cases h
      · exact hE (by rw [hij.1, hij.2]; exact h)
  rcases hm2 : (find_markers R C g).2 with - | q
  · exact h1
  · refine (setCell_ne ?_).trans h1
    intro hij
    rcases track_fold_snd_sound hm2 with h | h
    · cases h
    · exact hX (by rw [hij.1, hij.2]; exact h)

/-! ### The entry/exit border walk -/

theorem getD_mem_of_lt {α : Type} {l : List α} {n : Nat} {d : α} (h : n < l.length) :
    l.getD n d ∈ l := by
  rw [List.getD_eq_getElem l d h]
  exact List.getElem_mem h

theorem place_fold_filter (R C ep xp : Nat) (l : List (Nat × Nat)) :
    ∀ s, l.foldl (place_step R C ep xp) s =
      (l.filter fun p => decide (onBorder R C p.1 p.2)).foldl (place_step R C ep xp) s := by
  induction l with
  | nil => intro s; rfl
  | cons p t ih =>
    intro s
    rw [List.foldl_cons, List.filter_cons]
    by_cases h : onBorder R C p.1 p.2
    · rw [if_pos (decide_eq_true h), List.foldl_cons]
      exact ih _
    · rw [if_neg (by simp [h])]
      have hskip : place_step R C ep xp s p = s := by
        unfold place_step
        dsimp only
        rw [if_neg h]
      rw [hskip]
      exact ih _

theorem place_fold_run {R C ep xp : Nat} (hne : ep ≠ xp) :
    ∀ (bl : List (Nat × Nat)), bl.Nodup → (∀ p ∈ bl, onBorder R C p.1 p.2) →
    ∀ (g : Grid) (k i j : Nat),
    (bl.foldl (place_step R C ep xp) (g, k, decide (ep < k), decide (xp < k))).1 i j =
      if k ≤ ep ∧ ep - k < bl.length ∧ bl.getD (ep - k) (0, 0) = (i, j) then Cell.ENTRY
      else if k ≤ xp ∧ xp - k < bl.length ∧ bl.getD (xp - k) (0, 0) = (i, j) then Cell.EXIT
      else g i j := by
  intro bl
  induction bl with
  | nil =>
    intro _ _ g k i j
    simp only [List.foldl_nil, List.length_nil]
    rw [if_neg (by rintro ⟨-, h, -⟩; omega), if_neg (by rintro ⟨-, h, -⟩; omega)]
  | cons p t ih =>
    intro hnd hb g k i j
    have hbp : onBorder R C p.1 p.2 := hb p (List.mem_cons_self ..)
    have hbt : ∀ q ∈ t, onBorder R C q.1 q.2 := fun q hq => hb q (List.mem_cons_of_mem p hq)
    have hndt : t.Nodup := (List.nodup_cons.1 hnd).2
    have hpt : p ∉ t := (List.nodup_cons.1 hnd).1
    rw [List.foldl_cons]
    have hstep : place_step R C ep xp (g, k, decide (ep < k), decide (xp < k)) p =
        if k = ep then (setCell g p.1 p.2 Cell.ENTRY, k + 1, true, decide (xp < k))
        else if k = xp then (setCell g p.1 p.2 Cell.EXIT, k + 1, decide (ep < k), true)
        else (g, k + 1, decide (ep < k), decide (xp < k)) := by
      unfold place_step
      dsimp only
      rw [if_pos hbp]
      by_cases hke : k = ep
      · rw [if_pos hke, if_pos ⟨hke, decide_eq_false (by omega)⟩]
      · rw [if_neg hke, if_neg (fun hh => hke hh.1)]
        by_cases hkx : k = xp
        · rw [if_pos hkx, if_pos ⟨hkx, decide_eq_false (by omega)⟩]
        · rw [if_neg hkx, if_neg (fun hh => hkx hh.1)]
    rw [hstep]
    by_cases hke : k = ep
    · rw [if_pos hke]
      have hst : ((setCell g p.1 p.2 Cell.ENTRY, k + 1, true, decide (xp < k)) :
          Grid × Nat × Bool × Bool) =
          (setCell g p.1 p.2 Cell.ENTRY, k + 1, decide (ep < k + 1), decide (xp < k + 1)) := by
        rw [show decide (ep < k + 1) = true from decide_eq_true (by omega),
          show decide (xp < k + 1) = decide (xp < k) from decide_eq_decide.2 (by omega)]
      rw [hst, ih hndt hbt (setCell g p.1 p.2 Cell.ENTRY) (k + 1) i j]
      rw [if_neg (by rintro ⟨h1, -, -⟩; omega)]
      by_cases hpij : p = (i, j)
      · have hgoal1 : k ≤ ep ∧ ep - k < (p :: t).length ∧ (p :: t).getD (ep - k) (0, 0) = (i, j) := by
          refine ⟨by omega, by simp only [List.length_cons]; omega, ?_⟩
          rw [show ep - k = 0 by omega, List.getD_cons_zero]
          exact hpij
        rw [if_pos hgoal1]
        have htail : ¬(k + 1 ≤ xp ∧ xp - (k + 1) < t.length ∧ t.getD (xp - (k + 1)) (0, 0) = (i, j)) := by
          rintro ⟨-, hlen, hget⟩
          rw [← hpij] at hget
          exact hpt (hget ▸ getD_mem_of_lt hlen)
        rw [if_neg htail, hpij]
        exact setCell_self ..
      · have hgoal1 : ¬(k ≤ ep ∧ ep - k < (p :: t).length ∧ (p :: t).getD (ep - k) (0, 0) = (i, j)) := by
          rintro ⟨-, -, hget⟩
          rw [show ep - k = 0 by omega, List.getD_cons_zero] at hget
          exact hpij hget
        rw [if_neg hgoal1]
        have hiff : (k + 1 ≤ xp ∧ xp - (k + 1) < t.length ∧ t.getD (xp - (k + 1)) (0, 0) = (i, j)) ↔
            (k ≤ xp ∧ xp - k < (p :: t).length ∧ (p :: t).getD (xp - k) (0, 0) = (i, j)) := by
          have hxk : xp ≠ k := fun hh => hne (hke.symm.trans hh.symm)
          constructor
          · rintro ⟨h1, h2, h3⟩
            refine ⟨by omega, by simp only [List.length_cons]; omega, ?_⟩
            rw [show xp - k = (xp - (k + 1)) + 1 by omega, List.getD_cons_succ]
            exact h3
          · rintro ⟨h1, h2, h3⟩
            have hx1 : k + 1 ≤ xp := by omega
            rw [show xp - k = (xp - (k + 1)) + 1 by omega, List.getD_cons_succ] at h3
            simp only [List.length_cons] at h2
            exact ⟨hx1, by omega, h3⟩
        rw [if_congr hiff rfl rfl]
        by_cases hc : k ≤ xp ∧ xp - k < (p :: t).length ∧ (p :: t).getD (xp - k) (0, 0) = (i, j)
        · rw [if_pos hc, if_pos hc]
        · rw [if_neg hc, if_neg hc]
          exact setCell_ne fun hh => hpij (Prod.ext_iff.2 ⟨hh.1.symm, hh.2.symm⟩)
    · by_cases hkx : k = xp
      · rw [if_neg hke, if_pos hkx]
        have hst : ((setCell g p.1 p.2 Cell.EXIT, k + 1, decide (ep < k), true) :
            Grid × Nat × Bool × Bool) =
            (setCell g p.1 p.2 Cell.EXIT, k + 1, decide (ep < k + 1), decide (xp < k + 1)) := by
          rw [show decide (xp < k + 1) = true from decide_eq_true (by omega),
            show decide (ep < k + 1) = decide (ep < k) from decide_eq_decide.2 (by omega)]
        rw [hst, ih hndt hbt (setCell g p.1 p.2 Cell.EXIT) (k + 1) i j]
        have hiff : (k + 1 ≤ ep ∧ ep - (k + 1) < t.length ∧ t.getD (ep - (k + 1)) (0, 0) = (i, j)) ↔
            (k ≤ ep ∧ ep - k < (p :: t).length ∧ (p :: t).getD (ep - k) (0, 0) = (i, j)) := by
          constructor
          · rintro ⟨h1, h2, h3⟩
            refine ⟨by omega, by simp only [List.length_cons]; omega, ?_⟩
            rw [show ep - k = (ep - (k + 1)) + 1 by omega, List.getD_cons_succ]
            exact h3
          · rintro ⟨h1, h2, h3⟩
            have he1 : k + 1 ≤ ep := by omega
            rw [show ep - k = (ep - (k + 1)) + 1 by omega, List.getD_cons_succ] at h3
            simp only [List.length_cons] at h2
            exact ⟨he1, by omega, h3⟩
        rw [if_congr hiff rfl rfl]
        by_cases hc : k ≤ ep ∧ ep - k < (p :: t).length ∧ (p :: t).getD (ep - k) (0, 0) = (i, j)
        · rw [if_pos hc, if_pos hc]
        · rw [if_neg hc, if_neg hc]
          rw [if_neg (by rintro ⟨h1, -, -⟩; omega)]
          by_cases hpij : p = (i, j)
          · have hgoal2 : k ≤ xp ∧ xp - k < (p :: t).length ∧ (p :: t).getD (xp - k) (0, 0) = (i, j) := by
              refine ⟨by omega, by simp only [List.length_cons]; omega, ?_⟩
              rw [show xp - k = 0 by omega, List.getD_cons_zero]
              exact hpij
            rw [if_pos hgoal2, hpij]
            exact setCell_self ..
          · have hgoal2 : ¬(k ≤ xp ∧ xp - k < (p :: t).length ∧ (p :: t).getD (xp - k) (0, 0) = (i, j)) := by
              rintro ⟨-, -, hget⟩
              rw [show xp - k = 0 by omega, List.getD_cons_zero] at hget
              exact hpij hget
            rw [if_neg hgoal2]
            exact setCell_ne fun hh => hpij (Prod.ext_iff.2 ⟨hh.1.symm, hh.2.symm⟩)
      · rw [if_neg hke, if_neg hkx]
        have hst : ((g, k + 1, decide (ep < k), decide (xp < k)) : Grid × Nat × Bool × Bool) =
            (g, k + 1, decide (ep < k + 1), decide (xp < k + 1)) := by
          rw [show decide (ep < k + 1) = decide (ep < k) from decide_eq_decide.2 (by omega),
            show decide (xp < k + 1) = decide (xp < k) from decide_eq_decide.2 (by omega)]
        rw [hst, ih hndt hbt g (k + 1) i j]
        have hiffE : (k + 1 ≤ ep ∧ ep - (k + 1) < t.length ∧ t.getD (ep - (k + 1)) (0, 0) = (i, j)) ↔
            (k ≤ ep ∧ ep - k < (p :: t).length ∧ (p :: t).getD (ep - k) (0, 0) = (i, j)) := by
          constructor
          · rintro ⟨h1, h2, h3⟩
            refine ⟨by omega, by simp only [List.length_cons]; omega, ?_⟩
            rw [show ep - k = (ep - (k + 1)) + 1 by omega, List.getD_cons_succ]
            exact h3
          · rintro ⟨h1, h2, h3⟩
            have he1 : k + 1 ≤ ep := by omega
            rw [show ep - k = (ep - (k + 1)) + 1 by omega, List.getD_cons_succ] at h3
            simp only [List.length_cons] at h2
            exact ⟨he1, by omega, h3⟩
        have hiffX : (k + 1 ≤ xp ∧ xp - (k + 1) < t.length ∧ t.getD (xp - (k + 1)) (0, 0) = (i, j)) ↔
            (k ≤ xp ∧ xp - k < (p :: t).length ∧ (p :: t).getD (xp - k) (0, 0) = (i, j)) := by
          constructor
          · rintro ⟨h1, h2, h3⟩
            refine ⟨by omega, by simp only [List.length_cons]; omega, ?_⟩
            rw [show xp - k = (xp - (k + 1)) + 1 by omega, List.getD_cons_succ]
            exact h3
          · rintro ⟨h1, h2, h3⟩
            have hx1 : k + 1 ≤ xp := by omega
            rw [show xp - k = (xp - (k + 1)) + 1 by omega, List.getD_cons_succ] at h3
            simp only [List.length_cons] at h2
            exact ⟨hx1, by omega, h3⟩
        rw [if_congr hiffE rfl (if_congr hiffX rfl rfl)]

theorem place_entry_exit_at {R C ep xp : Nat} (hne : ep ≠ xp) (g : Grid) (i j : Nat) :
    place_entry_exit_points R C g ep xp i j =
      if ep < (borderList R C).length ∧ (borderList R C).getD ep (0, 0) = (i, j) then Cell.ENTRY
      else if xp < (borderList R C).length ∧ (borderList R C).getD xp (0, 0) = (i, j) then
        Cell.EXIT
      else g i j := by
  unfold place_entry_exit_points
  rw [place_fold_filter]
  rw [show ((g, 0, false, false) : Grid × Nat × Bool × Bool) =
    (g, 0, decide (ep < 0), decide (xp < 0)) by
      rw [show decide (ep < 0) = false from decide_eq_false (by omega),
        show decide (xp < 0) = false from decide_eq_false (by omega)]]
  have h := place_fold_run hne (borderList R C) (nodup_borderList R C)
    (fun p hp => (mem_borderList.1 hp).2) g 0 i j
  simp only [Nat.sub_zero, Nat.zero_le, true_and] at h
  exact h

/-! ### The exit-position rejection loop and the assembled generator pass -/

theorem sample_exit_spec {rnd : Nat → Nat} {L e : Nat} :
    ∀ {fuel i x i2}, sample_exit rnd L e i fuel = some (x, i2) →
      x ≠ e ∧ (0 < L → x < L) := by
  intro fuel
  induction fuel with
  | zero =>
    intro i x i2 h
    cases h
  | succ n ih =>
    intro i x i2 h
    unfold sample_exit at h
    split at h
    · exact ih h
    case isFalse hne =>
      injection h with h1
      injection h1 with h2 h3
      subst h2
      exact ⟨hne, fun hL => Nat.mod_lt _ hL⟩

theorem clear_markers_no_markers {R C : Nat} {g : Grid}
    (hEu : ∀ p ∈ rowMajor R C, ∀ q ∈ rowMajor R C,
      g p.1 p.2 = Cell.ENTRY → g q.1 q.2 = Cell.ENTRY → p = q)
    (hXu : ∀ p ∈ rowMajor R C, ∀ q ∈ rowMajor R C,
      g p.1 p.2 = Cell.EXIT → g q.1 q.2 = Cell.EXIT → p = q) :
    ∀ p ∈ rowMajor R C, clear_markers R C g p.1 p.2 ≠ Cell.ENTRY ∧
      clear_markers R C g p.1 p.2 ≠ Cell.EXIT := by
  intro p hp
  by_cases hE : g p.1 p.2 = Cell.ENTRY
  · have hfst : (find_markers R C g).1 = some p :=
      track_fold_fst_unique (nodup_rowMajor R C) hp hE fun q hq hEq => hEu q hq p hp hEq hE
    have hval : clear_markers R C g p.1 p.2 = Cell.CLOSED ∨
        clear_markers R C g p.1 p.2 = Cell.CLOSED ∨ False := by
      unfold clear_markers
      rcases clearAt_values (clearAt g (find_markers R C g).1) (find_markers R C g).2 p.1 p.2
        with h | h
      · rw [h]
        left
        rw [hfst]
        exact setCell_self ..
      · exact Or.inr (Or.inl h)
    rcases hval with h | h | h
    · rw [h]
      exact ⟨fun hh => Cell.noConfusion hh, fun hh => Cell.noConfusion hh⟩
    · rw [h]
      exact ⟨fun hh => Cell.noConfusion hh, fun hh => Cell.noConfusion hh⟩
    · cases h
  · by_cases hX : g p.1 p.2 = Cell.EXIT
    · have hsnd : (find_markers R C g).2 = some p :=
        track_fold_snd_unique (nodup_rowMajor R C) hp hX fun q hq hXq => hXu q hq p hp hXq hX
      have hval : clear_markers R C g p.1 p.2 = Cell.CLOSED := by
        unfold clear_markers
        rw [hsnd]
        exact setCell_self ..
      rw [hval]
      exact ⟨fun hh => Cell.noConfusion hh, fun hh => Cell.noConfusion hh⟩
    · rw [clear_markers_preserves hE hX]
      exact ⟨hE, hX⟩

theorem place_markers_spec {R C ep xp : Nat} {g2 : Grid}
    (hR : 2 ≤ R) (hC : 2 ≤ C) (hep : ep < edge_length R C) (hxp : xp < edge_length R C)
    (hne : ep ≠ xp)
    (hnoE : ∀ p ∈ rowMajor R C, g2 p.1 p.2 ≠ Cell.ENTRY)
    (hnoX : ∀ p ∈ rowMajor R C, g2 p.1 p.2 ≠ Cell.EXIT) :
    ∃ pe px : Nat × Nat, pe ≠ px ∧ pe ∈ borderList R C ∧ px ∈ borderList R C ∧
      place_entry_exit_points R C g2 ep xp pe.1 pe.2 = Cell.ENTRY ∧
      place_entry_exit_points R C g2 ep xp px.1 px.2 = Cell.EXIT ∧
      (∀ p ∈ rowMajor R C, place_entry_exit_points R C g2 ep xp p.1 p.2 = Cell.ENTRY → p = pe) ∧
      (∀ p ∈ rowMajor R C, place_entry_exit_points R C g2 ep xp p.1 p.2 = Cell.EXIT → p = px) := by
  have hB : (borderList R C).length = edge_length R C := length_borderList hR hC
  have hepB : ep < (borderList R C).length := by omega
  have hxpB : xp < (borderList R C).length := by omega
  have hdistinct : (borderList R C).getD ep (0, 0) ≠ (borderList R C).getD xp (0, 0) := by
    intro hh
    rw [List.getD_eq_getElem _ _ hepB, List.getD_eq_getElem _ _ hxpB] at hh
    exact hne (((nodup_borderList R C).getElem_inj_iff).1 hh)
  refine ⟨(borderList R C).getD ep (0, 0), (borderList R C).getD xp (0, 0), hdistinct,
    getD_mem_of_lt hepB, getD_mem_of_lt hxpB, ?_, ?_, ?_, ?_⟩
  · rw [place_entry_exit_at hne, if_pos ⟨hepB, Prod.mk.eta.symm⟩]
  · rw [place_entry_exit_at hne, if_neg, if_pos ⟨hxpB, Prod.mk.eta.symm⟩]
    rintro ⟨-, hh⟩
    exact hdistinct (hh.trans Prod.mk.eta)
  · intro p hp hEp
    rw [place_entry_exit_at hne] at hEp
    split at hEp
    case isTrue h => exact Prod.mk.eta.symm.trans h.2.symm
    case isFalse h =>
      split at hEp
      · cases hEp
      · exact absurd hEp (hnoE p hp)
  · intro p hp hXp
    rw [place_entry_exit_at hne] at hXp
    split at hXp
    case isTrue h => cases hXp
    case isFalse h =>
      split at hXp
      case isTrue h2 => exact Prod.mk.eta.symm.trans h2.2.symm
      case isFalse h2 => exact absurd hXp (hnoX p hp)

theorem randomize_markers {R C : Nat} {ρ : ℚ} {rnd : Nat → Nat} {g0 : Grid} {i0 fuel : Nat}
    {G : Grid} {i' : Nat} (hR : 2 ≤ R) (hC : 2 ≤ C)
    (hE1 : ∀ p ∈ borderList R C, ∀ q ∈ borderList R C,
      g0 p.1 p.2 = Cell.ENTRY → g0 q.1 q.2 = Cell.ENTRY → p = q)
    (hX1 : ∀ p ∈ borderList R C, ∀ q ∈ borderList R C,
      g0 p.1 p.2 = Cell.EXIT → g0 q.1 q.2 = Cell.EXIT → p = q)
    (hrun : randomize_matrix R C ρ rnd g0 i0 fuel = some (G, i')) :
    ∃ pe px : Nat × Nat, pe ≠ px ∧ pe ∈ borderList R C ∧ px ∈ borderList R C ∧
      G pe.1 pe.2 = Cell.ENTRY ∧ G px.1 px.2 = Cell.EXIT ∧
      (∀ p ∈ rowMajor R C, G p.1 p.2 = Cell.ENTRY → p = pe) ∧
      (∀ p ∈ rowMajor R C, G p.1 p.2 = Cell.EXIT → p = px) := by
  have hedge : 0 < edge_length R C := by
    unfold edge_length
    omega
  unfold randomize_matrix at hrun
  split at hrun
  · cases hrun
  case h_2 ex heq =>
    injection hrun with hpair
    injection hpair with hG hi
    subst hG
    obtain ⟨hxne, hxlt⟩ := sample_exit_spec heq
    have hep_lt : rnd (fill_pass R C ρ rnd g0 i0).2 % edge_length R C < edge_length R C :=
      Nat.mod_lt _ hedge
    have hFE : ∀ p ∈ rowMajor R C, ∀ q ∈ rowMajor R C,
        (fill_pass R C ρ rnd g0 i0).1 p.1 p.2 = Cell.ENTRY →
        (fill_pass R C ρ rnd g0 i0).1 q.1 q.2 = Cell.ENTRY → p = q := by
      intro p hp q hq h1 h2
      have hp' := (fill_pass_marker (mem_rowMajor.1 hp).1 (mem_rowMajor.1 hp).2
        (Or.inl rfl)).1 h1
      have hq' := (fill_pass_marker (mem_rowMajor.1 hq).1 (mem_rowMajor.1 hq).2
        (Or.inl rfl)).1 h2
      exact hE1 p (mem_borderList.2 ⟨mem_rowMajor.1 hp, hp'.1⟩)
        q (mem_borderList.2 ⟨mem_rowMajor.1 hq, hq'.1⟩) hp'.2 hq'.2
    have hFX : ∀ p ∈ rowMajor R C, ∀ q ∈ rowMajor R C,
        (fill_pass R C ρ rnd g0 i0).1 p.1 p.2 = Cell.EXIT →
        (fill_pass R C ρ rnd g0 i0).1 q.1 q.2 = Cell.EXIT → p = q := by
      intro p hp q hq h1 h2
      have hp' := (fill_pass_marker (mem_rowMajor.1 hp).1 (mem_rowMajor.1 hp).2
        (Or.inr rfl)).1 h1
      have hq' := (fill_pass_marker (mem_rowMajor.1 hq).1 (mem_rowMajor.1 hq).2
        (Or.inr rfl)).1 h2
      exact hX1 p (mem_borderList.2 ⟨mem_rowMajor.1 hp, hp'.1⟩)
        q (mem_borderList.2 ⟨mem_rowMajor.1 hq, hq'.1⟩) hp'.2 hq'.2
    have hclear := clear_markers_no_markers hFE hFX
    exact place_markers_spec hR hC hep_lt (hxlt hedge) (fun hh => hxne hh.symm)
      (fun p hp => (hclear p hp).1) (fun p hp => (hclear p hp).2)

/-! ### The depth-first search: grid effect, measure, fuel stability -/

/-- Cells the search can still expand: everything except `EXIT`, `CLOSED`
    and `VISITED` (`dfs` marks exactly these cells `VISITED`). -/
def expandable (v : Cell) : Prop :=
  v ≠ Cell.EXIT ∧ v ≠ Cell.CLOSED ∧ v ≠ Cell.VISITED

instance (v : Cell) : Decidable (expandable v) := by
  unfold expandable
  infer_instance

/-- How one `dfs` call may change the grid: any cell is either untouched or
    was an in-range expandable cell newly marked `VISITED`. -/
def Evolves (R C : Nat) (g g' : Grid) : Prop :=
  ∀ i j : Nat, g' i j = g i j ∨
    (g' i j = Cell.VISITED ∧ expandable (g i j) ∧ i < R ∧ j < C)

theorem evolves_rfl (R C : Nat) (g : Grid) : Evolves R C g g := fun _ _ => Or.inl rfl

theorem evolves_trans {R C : Nat} {g1 g2 g3 : Grid}
    (h12 : Evolves R C g1 g2) (h23 : Evolves R C g2 g3) : Evolves R C g1 g3 := by
  intro i j
  rcases h23 i j with h | h
  · rw [h]
    exact h12 i j
  · rcases h12 i j with h2 | h2
    · right
      refine ⟨h.1, ?_, h.2.2⟩
      rw [← h2]
      exact h.2.1
    · exact absurd h.2.1 (by rw [h2.1]; exact fun hx => hx.2.2 rfl)

theorem evolves_setCell {R C : Nat} {g : Grid} {r c : Nat}
    (hr : r < R) (hc : c < C) (hx : expandable (g r c)) :
    Evolves R C g (setCell g r c Cell.VISITED) := by
  intro i j
  unfold setCell
  split
  case isTrue h =>
    right
    refine ⟨rfl, ?_, ?_, ?_⟩
    · rw [h.1, h.2]
      exact hx
    · omega
    · omega
  case isFalse h => exact Or.inl rfl

theorem dfs_evolves (R C : Nat) : ∀ (fuel : Nat) (g : Grid) (row col : Int),
    Evolves R C g (dfsFuel R C fuel g row col).2 := by
  intro fuel
  induction fuel with
  | zero => intro g row col; exact evolves_rfl R C g
  | succ n ih =>
    intro g row col
    unfold dfsFuel
    split
    · exact evolves_rfl R C g
    case isFalse hb =>
      dsimp only
      split
      · exact evolves_rfl R C g
      case isFalse hexit =>
        split
        · exact evolves_rfl R C g
        case isFalse hcv =>
          have hr : row.toNat < R := by omega
          have hc : col.toNat < C := by omega
          have hx : expandable (g row.toNat col.toNat) :=
            ⟨hexit, fun h => hcv (Or.inl h), fun h => hcv (Or.inr h)⟩
          exact evolves_trans (evolves_setCell hr hc hx)
            (evolves_trans (ih _ _ _)
              (evolves_trans (ih _ _ _) (evolves_trans (ih _ _ _) (ih _ _ _))))

/-- The number of in-range cells the search could still expand: the
    termination measure. -/
def activeCount (R C : Nat) (g : Grid) : Nat :=
  ((rowMajor R C).filter fun p => decide (expandable (g p.1 p.2))).length

theorem activeCount_le (R C : Nat) (g : Grid) : activeCount R C g ≤ R * C := by
  unfold activeCount
  calc ((rowMajor R C).filter fun p => decide (expandable (g p.1 p.2))).length
      ≤ (rowMajor R C).length := List.length_filter_le ..
    _ = R * C := length_rowMajor ..

theorem evolves_activeCount_le {R C : Nat} {g g' : Grid} (h : Evolves R C g g') :
    activeCount R C g' ≤ activeCount R C g := by
  unfold activeCount
  rw [← List.countP_eq_length_filter, ← List.countP_eq_length_filter]
  refine List.countP_mono_left fun p hp hxp => ?_
  rw [decide_eq_true_eq] at hxp ⊢
  rcases h p.1 p.2 with hh | hh
  · rw [← hh]
    exact hxp
  · exact absurd hxp (by rw [hh.1]; exact fun hx => hx.2.2 rfl)

theorem activeCount_setCell_lt {R C : Nat} {g : Grid} {r c : Nat}
    (hr : r < R) (hc : c < C) (hx : expandable (g r c)) :
    activeCount R C (setCell g r c Cell.VISITED) < activeCount R C g := by
  unfold activeCount
  have hmem : ((r, c) : Nat × Nat) ∈ rowMajor R C := mem_rowMajor.2 ⟨hr, hc⟩
  refine length_filter_lt ?_ hmem ?_ ?_
  · intro q hq hxq
    rw [decide_eq_true_eq] at hxq ⊢
    unfold setCell at hxq
    split at hxq
    · exact absurd hxq (fun hh => hh.2.2 rfl)
    · exact hxq
  · rw [decide_eq_true_eq]
    exact hx
  · rw [decide_eq_false_iff_not]
    unfold setCell
    rw [if_pos ⟨rfl, rfl⟩]
    exact fun hh => hh.2.2 rfl

theorem dfsFuel_stable (R C : Nat) : ∀ (f1 : Nat) {f2 : Nat} (g : Grid) (row col : Int),
    activeCount R C g < f1 → activeCount R C g < f2 →
    dfsFuel R C f1 g row col = dfsFuel R C f2 g row col := by
  intro f1
  induction f1 with
  | zero =>
    intro f2 g row col h1 h2
    omega
  | succ n ih =>
    intro f2 g row col h1 h2
    cases f2 with
    | zero => omega
    | succ m =>
      unfold dfsFuel
      split
      · rfl
      case isFalse hb =>
        dsimp only
        split
        · rfl
        case isFalse hexit =>
          split
          · rfl
          case isFalse hcv =>
            have hr : row.toNat < R := by omega
            have hc : col.toNat < C := by omega
            have hx : expandable (g row.toNat col.toNat) :=
              ⟨hexit, fun h => hcv (Or.inl h), fun h => hcv (Or.inr h)⟩
            have hlt := activeCount_setCell_lt hr hc hx
            have hU : dfsFuel R C n (setCell g row.toNat col.toNat Cell.VISITED) (row - 1) col =
                dfsFuel R C m (setCell g row.toNat col.toNat Cell.VISITED) (row - 1) col :=
              ih _ _ _ (by omega) (by omega)
            rw [hU]
            have hcU := evolves_activeCount_le
              (dfs_evolves R C m (setCell g row.toNat col.toNat Cell.VISITED) (row - 1) col)
            have hD : dfsFuel R C n
                (dfsFuel R C m (setCell g row.toNat col.toNat Cell.VISITED) (row - 1) col).2
                (row + 1) col =
                dfsFuel R C m
                (dfsFuel R C m (setCell g row.toNat col.toNat Cell.VISITED) (row - 1) col).2
                (row + 1) col :=
              ih _ _ _ (by omega) (by omega)
            rw [hD]
            have hcD := evolves_activeCount_le
              (dfs_evolves R C m
                (dfsFuel R C m (setCell g row.toNat col.toNat Cell.VISITED) (row - 1) col).2
                (row + 1) col)
            have hL : dfsFuel R C n
                (dfsFuel R C m
                  (dfsFuel R C m (setCell g row.toNat col.toNat Cell.VISITED) (row - 1) col).2
                  (row + 1) col).2
                row (col - 1) =
                dfsFuel R C m
                (dfsFuel R C m
                  (dfsFuel R C m (setCell g row.toNat col.toNat Cell.VISITED) (row - 1) col).2
                  (row + 1) col).2
                row (col - 1) :=
              ih _ _ _ (by omega) (by omega)
            rw [hL]
            have hcL := evolves_activeCount_le
              (dfs_evolves R C m
                (dfsFuel R C m
                  (dfsFuel R C m (setCell g row.toNat col.toNat Cell.VISITED) (row - 1) col).2
                  (row + 1) col).2
                row (col - 1))
            have hRp : dfsFuel R C n
                (dfsFuel R C m
                  (dfsFuel R C m
                    (dfsFuel R C m (setCell g row.toNat col.toNat Cell.VISITED) (row - 1) col).2
                    (row + 1) col).2
                  row (col - 1)).2
                row (col + 1) =
                dfsFuel R C m
                (dfsFuel R C m
                  (dfsFuel R C m
                    (dfsFuel R C m (setCell g row.toNat col.toNat Cell.VISITED) (row - 1) col).2
                    (row + 1) col).2
                  row (col - 1)).2
                row (col + 1) :=
              ih _ _ _ (by omega) (by omega)
            rw [hRp]

/-! ### Entry location and reporting -/

theorem findEntry_some_spec {R C : Nat} {g : Grid} {p : Nat × Nat}
    (h : findEntry R C g = some p) :
    p.1 < R ∧ p.2 < C ∧ onBorder R C p.1 p.2 ∧ g p.1 p.2 = Cell.ENTRY := by
  have hmem := List.mem_of_find?_eq_some h
  have hpred := List.find?_some h
  rw [Bool.and_eq_true, decide_eq_true_eq, decide_eq_true_eq] at hpred
  exact ⟨(mem_rowMajor.1 hmem).1, (mem_rowMajor.1 hmem).2, hpred.1, hpred.2⟩

theorem findEntry_none {R C : Nat} {g : Grid}
    (h : ∀ p ∈ rowMajor R C, g p.1 p.2 ≠ Cell.ENTRY) :
    findEntry R C g = none := by
  refine List.find?_eq_none.2 fun p hp hpred => ?_
  rw [Bool.and_eq_true, decide_eq_true_eq, decide_eq_true_eq] at hpred
  exact h p hp hpred.2

theorem evolves_preserves_visited {R C : Nat} {g g' : Grid} {i j : Nat}
    (h : Evolves R C g g') (hv : g i j = Cell.VISITED) : g' i j = Cell.VISITED := by
  rcases h i j with hh | hh
  · rw [hh, hv]
  · exact hh.1

theorem evolves_preserves_nonexpandable {R C : Nat} {g g' : Grid} {i j : Nat}
    (h : Evolves R C g g') (hv : ¬expandable (g i j)) : g' i j = g i j := by
  rcases h i j with hh | hh
  · exact hh
  · exact absurd hh.2.1 hv

/-- One unfolding of the recursive case of `dfs`: all four directions are
    explored in order up, down, left, right, each on the grid the previous
    one left, regardless of which of them report success; the reported path
    takes the first success. -/
theorem dfsFuel_succ_expand {R C : Nat} (f : Nat) (g : Grid) (row col : Int)
    (hb : ¬(row < 0 ∨ (R : Int) ≤ row ∨ col < 0 ∨ (C : Int) ≤ col))
    (hexit : g row.toNat col.toNat ≠ Cell.EXIT)
    (hcv : ¬(g row.toNat col.toNat = Cell.CLOSED ∨ g row.toNat col.toNat = Cell.VISITED)) :
    dfsFuel R C (f + 1) g row col =
      ((if (dfsFuel R C f (setCell g row.toNat col.toNat Cell.VISITED)
            (row - 1) col).1.found then
          ⟨row, col,
            (dfsFuel R C f (setCell g row.toNat col.toNat Cell.VISITED) (row - 1) col).1.end_x,
            (dfsFuel R C f (setCell g row.toNat col.toNat Cell.VISITED) (row - 1) col).1.end_y,
            true⟩
        else if (dfsFuel R C f
            (dfsFuel R C f (setCell g row.toNat col.toNat Cell.VISITED) (row - 1) col).2
            (row + 1) col).1.found then
          ⟨row, col,
            (dfsFuel R C f
              (dfsFuel R C f (setCell g row.toNat col.toNat Cell.VISITED) (row - 1) col).2
              (row + 1) col).1.end_x,
            (dfsFuel R C f
              (dfsFuel R C f (setCell g row.toNat col.toNat Cell.VISITED) (row - 1) col).2
              (row + 1) col).1.end_y,
            true⟩
        else if (dfsFuel R C f
            (dfsFuel R C f
              (dfsFuel R C f (setCell g row.toNat col.toNat Cell.VISITED) (row - 1) col).2
              (row + 1) col).2
            row (col - 1)).1.found then
          ⟨row, col,
            (dfsFuel R C f
              (dfsFuel R C f
                (dfsFuel R C f (setCell g row.toNat col.toNat Cell.VISITED) (row - 1) col).2
                (row + 1) col).2
              row (col - 1)).1.end_x,
            (dfsFuel R C f
              (dfsFuel R C f
                (dfsFuel R C f (setCell g row.toNat col.toNat Cell.VISITED) (row - 1) col).2
                (row + 1) col).2
              row (col - 1)).1.end_y,
            true⟩
        else if (dfsFuel R C f
            (dfsFuel R C f
              (dfsFuel R C f
                (dfsFuel R C f (setCell g row.toNat col.toNat Cell.VISITED) (row - 1) col).2
                (row + 1) col).2
              row (col - 1)).2
            row (col + 1)).1.found then
          ⟨row, col,
            (dfsFuel R C f
              (dfsFuel R C f
                (dfsFuel R C f
                  (dfsFuel R C f (setCell g row.toNat col.toNat Cell.VISITED) (row - 1) col).2
                  (row + 1) col).2
                row (col - 1)).2
              row (col + 1)).1.end_x,
            (dfsFuel R C f
              (dfsFuel R C f
                (dfsFuel R C f
                  (dfsFuel R C f (setCell g row.toNat col.toNat Cell.VISITED) (row - 1) col).2
                  (row + 1) col).2
                row (col - 1)).2
              row (col + 1)).1.end_y,
            true⟩
        else noPath),
       (dfsFuel R C f
          (dfsFuel R C f
            (dfsFuel R C f
              (dfsFuel R C f (setCell g row.toNat col.toNat Cell.VISITED) (row - 1) col).2
              (row + 1) col).2
            row (col - 1)).2
          row (col + 1)).2) := by
  conv_lhs => unfold dfsFuel
  rw [if_neg hb]
  dsimp only
  rw [if_neg hexit, if_neg hcv]

/-- Whenever a `dfs` call reports success, the `start` field of the returned
    path holds that call's own coordinates: both the `EXIT` base case and the
    recursive case overwrite `start` with the current cell. -/
theorem dfs_start_shape (R C : Nat) : ∀ (f : Nat) (g : Grid) (row col : Int),
    (dfsFuel R C f g row col).1.found = false ∨
    ((dfsFuel R C f g row col).1.start_x = row ∧ (dfsFuel R C f g row col).1.start_y = col) := by
  intro f g row col
  cases f with
  | zero => exact Or.inl rfl
  | succ n =>
    unfold dfsFuel
    split
    · exact Or.inl rfl
    · dsimp only
      split
      · exact Or.inr ⟨rfl, rfl⟩
      · split
        · exact Or.inl rfl
        · dsimp only
          split
          · exact Or.inr ⟨rfl, rfl⟩
          · split
            · exact Or.inr ⟨rfl, rfl⟩
            · split
              · exact Or.inr ⟨rfl, rfl⟩
              · split
                · exact Or.inr ⟨rfl, rfl⟩
                · exact Or.inl rfl

theorem find_path_of_no_entry {R C : Nat} {g : Grid}
    (h : ∀ p ∈ rowMajor R C, g p.1 p.2 ≠ Cell.ENTRY) :
    find_path R C g = (SearchOutcome.entryNotFound, g) := by
  unfold find_path
  rw [findEntry_none h]

/-! ### In-range congruence: a pass reads only in-range cells -/

/-- Two grids that agree on every in-range cell. -/
def EqOn (R C : Nat) (g1 g2 : Grid) : Prop :=
  ∀ i j : Nat, i < R → j < C → g1 i j = g2 i j

theorem eqOn_symm {R C : Nat} {g1 g2 : Grid} (h : EqOn R C g1 g2) : EqOn R C g2 g1 :=
  fun i j hi hj => (h i j hi hj).symm

theorem eqOn_setCell {R C : Nat} {g1 g2 : Grid} (h : EqOn R C g1 g2) (r c : Nat) (v : Cell) :
    EqOn R C (setCell g1 r c v) (setCell g2 r c v) := by
  intro i j hi hj
  unfold setCell
  split
  · rfl
  · exact h i j hi hj

theorem count_adjacent_congr {R C : Nat} {g1 g2 : Grid} {r c : Nat}
    (hr : r < R) (hc : c < C) (h : EqOn R C g1 g2) :
    count_adjacent_open_cells R C g1 r c = count_adjacent_open_cells R C g2 r c := by
  unfold count_adjacent_open_cells
  have h1 : (if 0 < r ∧ g1 (r - 1) c = Cell.OPEN then 1 else 0) =
      (if 0 < r ∧ g2 (r - 1) c = Cell.OPEN then 1 else 0) := by
    by_cases h0 : 0 < r
    · rw [h (r - 1) c (by omega) hc]
    · rw [if_neg (fun hh => h0 hh.1), if_neg (fun hh => h0 hh.1)]
  have h2 : (if r < R - 1 ∧ g1 (r + 1) c = Cell.OPEN then 1 else 0) =
      (if r < R - 1 ∧ g2 (r + 1) c = Cell.OPEN then 1 else 0) := by
    by_cases h0 : r < R - 1
    · rw [h (r + 1) c (by omega) hc]
    · rw [if_neg (fun hh => h0 hh.1), if_neg (fun hh => h0 hh.1)]
  have h3 : (if 0 < c ∧ g1 r (c - 1) = Cell.OPEN then 1 else 0) =
      (if 0 < c ∧ g2 r (c - 1) = Cell.OPEN then 1 else 0) := by
    by_cases h0 : 0 < c
    · rw [h r (c - 1) hr (by omega)]
    · rw [if_neg (fun hh => h0 hh.1), if_neg (fun hh => h0 hh.1)]
  have h4 : (if c < C - 1 ∧ g1 r (c + 1) = Cell.OPEN then 1 else 0) =
      (if c < C - 1 ∧ g2 r (c + 1) = Cell.OPEN then 1 else 0) := by
    by_cases h0 : c < C - 1
    · rw [h r (c + 1) hr (by omega)]
    · rw [if_neg (fun hh => h0 hh.1), if_neg (fun hh => h0 hh.1)]
  rw [h1, h2, h3, h4]

theorem valid_congr {R C : Nat} {g1 g2 : Grid} {r c : Nat}
    (hr : r < R) (hc : c < C) (h : EqOn R C g1 g2) :
    is_valid_open_cell_placement R C g1 r c = is_valid_open_cell_placement R C g2 r c := by
  have hline : ∀ {ga gb : Grid}, EqOn R C ga gb →
      ((0 < r ∧ r < R - 1 ∧ ga (r - 1) c = Cell.OPEN ∧ ga (r + 1) c = Cell.OPEN) ∨
       (0 < c ∧ c < C - 1 ∧ ga r (c - 1) = Cell.OPEN ∧ ga r (c + 1) = Cell.OPEN) ∨
       (0 < r ∧ r < R - 1 ∧ 0 < c ∧ c < C - 1 ∧
         ga (r - 1) (c - 1) = Cell.OPEN ∧ ga (r + 1) (c + 1) = Cell.OPEN) ∨
       (0 < r ∧ r < R - 1 ∧ 0 < c ∧ c < C - 1 ∧
         ga (r - 1) (c + 1) = Cell.OPEN ∧ ga (r + 1) (c - 1) = Cell.OPEN)) →
      ((0 < r ∧ r < R - 1 ∧ gb (r - 1) c = Cell.OPEN ∧ gb (r + 1) c = Cell.OPEN) ∨
       (0 < c ∧ c < C - 1 ∧ gb r (c - 1) = Cell.OPEN ∧ gb r (c + 1) = Cell.OPEN) ∨
       (0 < r ∧ r < R - 1 ∧ 0 < c ∧ c < C - 1 ∧
         gb (r - 1) (c - 1) = Cell.OPEN ∧ gb (r + 1) (c + 1) = Cell.OPEN) ∨
       (0 < r ∧ r < R - 1 ∧ 0 < c ∧ c < C - 1 ∧
         gb (r - 1) (c + 1) = Cell.OPEN ∧ gb (r + 1) (c - 1) = Cell.OPEN)) := by
    intro ga gb hab hd
    rcases hd with ⟨d1, d2, d3, d4⟩ | ⟨d1, d2, d3, d4⟩ |
      ⟨d1, d2, d3, d4, d5, d6⟩ | ⟨d1, d2, d3, d4, d5, d6⟩
    · exact Or.inl ⟨d1, d2, by rw [← hab (r - 1) c (by omega) hc]; exact d3,
        by rw [← hab (r + 1) c (by omega) hc]; exact d4⟩
    · exact Or.inr (Or.inl ⟨d1, d2, by rw [← hab r (c - 1) hr (by omega)]; exact d3,
        by rw [← hab r (c + 1) hr (by omega)]; exact d4⟩)
    · exact Or.inr (Or.inr (Or.inl ⟨d1, d2, d3, d4,
        by rw [← hab (r - 1) (c - 1) (by omega) (by omega)]; exact d5,
        by rw [← hab (r + 1) (c + 1) (by omega) (by omega)]; exact d6⟩))
    · exact Or.inr (Or.inr (Or.inr ⟨d1, d2, d3, d4,
        by rw [← hab (r - 1) (c + 1) (by omega) (by omega)]; exact d5,
        by rw [← hab (r + 1) (c - 1) (by omega) (by omega)]; exact d6⟩))
  have c3 : ((0 < r ∧ r < R - 1 ∧ g1 (r - 1) c = Cell.OPEN ∧ g1 (r + 1) c = Cell.OPEN) ∨
       (0 < c ∧ c < C - 1 ∧ g1 r (c - 1) = Cell.OPEN ∧ g1 r (c + 1) = Cell.OPEN) ∨
       (0 < r ∧ r < R - 1 ∧ 0 < c ∧ c < C - 1 ∧
         g1 (r - 1) (c - 1) = Cell.OPEN ∧ g1 (r + 1) (c + 1) = Cell.OPEN) ∨
       (0 < r ∧ r < R - 1 ∧ 0 < c ∧ c < C - 1 ∧
         g1 (r - 1) (c + 1) = Cell.OPEN ∧ g1 (r + 1) (c - 1) = Cell.OPEN)) ↔
      ((0 < r ∧ r < R - 1 ∧ g2 (r - 1) c = Cell.OPEN ∧ g2 (r + 1) c = Cell.OPEN) ∨
       (0 < c ∧ c < C - 1 ∧ g2 r (c - 1) = Cell.OPEN ∧ g2 r (c + 1) = Cell.OPEN) ∨
       (0 < r ∧ r < R - 1 ∧ 0 < c ∧ c < C - 1 ∧
         g2 (r - 1) (c - 1) = Cell.OPEN ∧ g2 (r + 1) (c + 1) = Cell.OPEN) ∨
       (0 < r ∧ r < R - 1 ∧ 0 < c ∧ c < C - 1 ∧
         g2 (r - 1) (c + 1) = Cell.OPEN ∧ g2 (r + 1) (c - 1) = Cell.OPEN)) :=
    ⟨hline h, hline (eqOn_symm h)⟩
  have c4 : (1 < r ∧ g1 (r - 2) c = Cell.OPEN ∧ g1 (r - 1) c = Cell.OPEN) ↔
      (1 < r ∧ g2 (r - 2) c = Cell.OPEN ∧ g2 (r - 1) c = Cell.OPEN) := by
    constructor
    · rintro ⟨d1, d2, d3⟩
      exact ⟨d1, by rw [← h (r - 2) c (by omega) hc]; exact d2,
        by rw [← h (r - 1) c (by omega) hc]; exact d3⟩
    · rintro ⟨d1, d2, d3⟩
      exact ⟨d1, by rw [h (r - 2) c (by omega) hc]; exact d2,
        by rw [h (r - 1) c (by omega) hc]; exact d3⟩
  have c5 : (r < R - 2 ∧ g1 (r + 2) c = Cell.OPEN ∧ g1 (r + 1) c = Cell.OPEN) ↔
      (r < R - 2 ∧ g2 (r + 2) c = Cell.OPEN ∧ g2 (r + 1) c = Cell.OPEN) := by
    constructor
    · rintro ⟨d1, d2, d3⟩
      exact ⟨d1, by rw [← h (r + 2) c (by omega) hc]; exact d2,
        by rw [← h (r + 1) c (by omega) hc]; exact d3⟩
    · rintro ⟨d1, d2, d3⟩
      exact ⟨d1, by rw [h (r + 2) c (by omega) hc]; exact d2,
        by rw [h (r + 1) c (by omega) hc]; exact d3⟩
  have c6 : (1 < c ∧ g1 r (c - 2) = Cell.OPEN ∧ g1 r (c - 1) = Cell.OPEN) ↔
      (1 < c ∧ g2 r (c - 2) = Cell.OPEN ∧ g2 r (c - 1) = Cell.OPEN) := by
    constructor
    · rintro ⟨d1, d2, d3⟩
      exact ⟨d1, by rw [← h r (c - 2) hr (by omega)]; exact d2,
        by rw [← h r (c - 1) hr (by omega)]; exact d3⟩
    · rintro ⟨d1, d2, d3⟩
      exact ⟨d1, by rw [h r (c - 2) hr (by omega)]; exact d2,
        by rw [h r (c - 1) hr (by omega)]; exact d3⟩
  have c7 : (c < C - 2 ∧ g1 r (c + 2) = Cell.OPEN ∧ g1 r (c + 1) = Cell.OPEN) ↔
      (c < C - 2 ∧ g2 r (c + 2) = Cell.OPEN ∧ g2 r (c + 1) = Cell.OPEN) := by
    constructor
    · rintro ⟨d1, d2, d3⟩
      exact ⟨d1, by rw [← h r (c + 2) hr (by omega)]; exact d2,
        by rw [← h r (c + 1) hr (by omega)]; exact d3⟩
    · rintro ⟨d1, d2, d3⟩
      exact ⟨d1, by rw [h r (c + 2) hr (by omega)]; exact d2,
        by rw [h r (c + 1) hr (by omega)]; exact d3⟩
  unfold is_valid_open_cell_placement
  exact if_congr (by rw [h r c hr hc]) rfl
    (if_congr (by rw [count_adjacent_congr hr hc h]) rfl
      (if_congr c3 rfl
        (if_congr c4 rfl
          (if_congr c5 rfl
            (if_congr c6 rfl
              (if_congr c7 rfl rfl))))))

theorem fill_fold_congr {R C : Nat} {ρ : ℚ} {rnd : Nat → Nat} :
    ∀ {l : List (Nat × Nat)}, (∀ p ∈ l, p.1 < R ∧ p.2 < C) →
    ∀ {g1 g2 : Grid} (i : Nat), EqOn R C g1 g2 →
    EqOn R C (fill_fold R C ρ rnd (g1, i) l).1 (fill_fold R C ρ rnd (g2, i) l).1 ∧
    (fill_fold R C ρ rnd (g1, i) l).2 = (fill_fold R C ρ rnd (g2, i) l).2 := by
  intro l
  induction l with
  | nil => exact fun _ _ _ i h => ⟨h, rfl⟩
  | cons p t ih =>
    intro hl g1 g2 i h
    have hp := hl p (List.mem_cons_self ..)
    have ht := fun q hq => hl q (List.mem_cons_of_mem p hq)
    have hstep : (fill_step R C ρ rnd (g1, i) p).2 = (fill_step R C ρ rnd (g2, i) p).2 ∧
        EqOn R C (fill_step R C ρ rnd (g1, i) p).1 (fill_step R C ρ rnd (g2, i) p).1 := by
      unfold fill_step
      dsimp only
      rw [h p.1 p.2 hp.1 hp.2, valid_congr hp.1 hp.2 h]
      split
      · exact ⟨rfl, h⟩
      · split
        · exact ⟨rfl, eqOn_setCell h p.1 p.2 Cell.OPEN⟩
        · exact ⟨rfl, eqOn_setCell h p.1 p.2 Cell.CLOSED⟩
    show EqOn R C (fill_fold R C ρ rnd (fill_step R C ρ rnd (g1, i) p) t).1
        (fill_fold R C ρ rnd (fill_step R C ρ rnd (g2, i) p) t).1 ∧
      (fill_fold R C ρ rnd (fill_step R C ρ rnd (g1, i) p) t).2 =
      (fill_fold R C ρ rnd (fill_step R C ρ rnd (g2, i) p) t).2
    rcases e1 : fill_step R C ρ rnd (g1, i) p with ⟨G1, j1⟩
    rcases e2 : fill_step R C ρ rnd (g2, i) p with ⟨G2, j2⟩
    rw [e1, e2] at hstep
    obtain ⟨hj, hG⟩ := hstep
    dsimp only at hj hG
    subst hj
    exact ih ht j1 hG

theorem find_markers_congr {R C : Nat} {g1 g2 : Grid} (h : EqOn R C g1 g2) :
    find_markers R C g1 = find_markers R C g2 := by
  unfold find_markers
  have hgen : ∀ (l : List (Nat × Nat)), (∀ p ∈ l, p.1 < R ∧ p.2 < C) →
      ∀ s, List.foldl (track_step g1) s l = List.foldl (track_step g2) s l := by
    intro l
    induction l with
    | nil => intro _ s; rfl
    | cons p t ih =>
      intro hl s
      rw [List.foldl_cons, List.foldl_cons]
      have hp := hl p (List.mem_cons_self ..)
      have hstep : track_step g1 s p = track_step g2 s p := by
        unfold track_step
        rw [h p.1 p.2 hp.1 hp.2]
      rw [hstep]
      exact ih (fun q hq => hl q (List.mem_cons_of_mem p hq)) _
  exact hgen (rowMajor R C) (fun p hp => mem_rowMajor.1 hp) (none, none)

theorem clear_markers_congr {R C : Nat} {g1 g2 : Grid} (h : EqOn R C g1 g2) :
    EqOn R C (clear_markers R C g1) (clear_markers R C g2) := by
  unfold clear_markers
  rw [← find_markers_congr h]
  rcases (find_markers R C g1).1 with - | q1 <;> rcases (find_markers R C g1).2 with - | q2
  · exact h
  · exact eqOn_setCell h q2.1 q2.2 Cell.CLOSED
  · exact eqOn_setCell h q1.1 q1.2 Cell.CLOSED
  · exact eqOn_setCell (eqOn_setCell h q1.1 q1.2 Cell.CLOSED) q2.1 q2.2 Cell.CLOSED

theorem randomize_congr {R C : Nat} {ρ : ℚ} {rnd : Nat → Nat} {g1 g2 : Grid} {i fuel : Nat}
    (h : EqOn R C g1 g2) (r c : Nat) (hr : r < R) (hc : c < C) :
    (randomize_matrix R C ρ rnd g1 i fuel).map (fun gp => gp.1 r c) =
      (randomize_matrix R C ρ rnd g2 i fuel).map (fun gp => gp.1 r c) ∧
    (randomize_matrix R C ρ rnd g1 i fuel).map (fun gp => gp.2) =
      (randomize_matrix R C ρ rnd g2 i fuel).map (fun gp => gp.2) := by
  have hall : ∀ p ∈ rowMajor R C, p.1 < R ∧ p.2 < C := fun p hp => mem_rowMajor.1 hp
  obtain ⟨hG, hidx⟩ := fill_fold_congr hall i h
  unfold randomize_matrix
  rw [show (fill_pass R C ρ rnd g2 i).2 = (fill_pass R C ρ rnd g1 i).2 from hidx.symm]
  rcases hs : sample_exit rnd (edge_length R C)
      (rnd (fill_pass R C ρ rnd g1 i).2 % edge_length R C)
      ((fill_pass R C ρ rnd g1 i).2 + 1) fuel with - | ex
  · exact ⟨rfl, rfl⟩
  · obtain ⟨hxne, -⟩ := sample_exit_spec hs
    have hne : rnd (fill_pass R C ρ rnd g1 i).2 % edge_length R C ≠ ex.1 :=
      fun hh => hxne hh.symm
    constructor
    · show some (place_entry_exit_points R C (clear_markers R C (fill_pass R C ρ rnd g1 i).1)
          (rnd (fill_pass R C ρ rnd g1 i).2 % edge_length R C) ex.1 r c) =
        some (place_entry_exit_points R C (clear_markers R C (fill_pass R C ρ rnd g2 i).1)
          (rnd (fill_pass R C ρ rnd g1 i).2 % edge_length R C) ex.1 r c)
      have hG2 : EqOn R C (fill_pass R C ρ rnd g1 i).1 (fill_pass R C ρ rnd g2 i).1 := hG
      rw [place_entry_exit_at hne, place_entry_exit_at hne]
      rw [clear_markers_congr hG2 r c hr hc]
    · exact rfl

set_option maxRecDepth 1000000

theorem option_eq_some_getD {α β : Type} {o : Option (α × β)} {d : α × β}
    (h : o.isSome = true) : o = some ((o.getD d).1, (o.getD d).2) := by
  cases o with
  | none => cases h
  | some x => rfl

/-! ### Claim C1 -/

/-- **C1** (amended): a `randomize_matrix` pass on any grid holding at most
    one border `ENTRY` and at most one border `EXIT` marker — as every grid
    the program itself produces does — yields exactly one `ENTRY` and exactly
    one `EXIT` cell, both on the border, and distinct.  (The unamended
    "regardless of the grid's previous cell contents" fails: with two
    leftover border `ENTRY` markers the clearing phase erases only the last
    one; see the counterexample.) -/
theorem C1_regenerate_unique_markers {R C : Nat} {ρ : ℚ} {rnd : Nat → Nat} {g0 : Grid}
    {i0 fuel : Nat} {G : Grid} {i' : Nat} (hR : 2 ≤ R) (hC : 2 ≤ C)
    (hE1 : ∀ p ∈ borderList R C, ∀ q ∈ borderList R C,
      g0 p.1 p.2 = Cell.ENTRY → g0 q.1 q.2 = Cell.ENTRY → p = q)
    (hX1 : ∀ p ∈ borderList R C, ∀ q ∈ borderList R C,
      g0 p.1 p.2 = Cell.EXIT → g0 q.1 q.2 = Cell.EXIT → p = q)
    (hrun : randomize_matrix R C ρ rnd g0 i0 fuel = some (G, i')) :
    ∃ pe px : Nat × Nat, pe ≠ px ∧
      (pe.1 < R ∧ pe.2 < C ∧ onBorder R C pe.1 pe.2) ∧
      (px.1 < R ∧ px.2 < C ∧ onBorder R C px.1 px.2) ∧
      G pe.1 pe.2 = Cell.ENTRY ∧ G px.1 px.2 = Cell.EXIT ∧
      (∀ p ∈ rowMajor R C, G p.1 p.2 = Cell.ENTRY → p = pe) ∧
      (∀ p ∈ rowMajor R C, G p.1 p.2 = Cell.EXIT → p = px) := by
  obtain ⟨pe, px, h1, h2, h3, h4, h5, h6, h7⟩ := randomize_markers hR hC hE1 hX1 hrun
  obtain ⟨h2a, h2b⟩ := mem_borderList.1 h2
  obtain ⟨h3a, h3b⟩ := mem_borderList.1 h3
  exact ⟨pe, px, h1, ⟨h2a.1, h2a.2, h2b⟩, ⟨h3a.1, h3a.2, h3b⟩, h4, h5, h6, h7⟩

/-- **C1** counterexample: starting from a previous grid with two border
    `ENTRY` markers (allowed by the claim's "regardless of the grid's
    previous cell contents"), the 2×2 pass leaves **two** `ENTRY` cells:
    the marker scan clears only the last leftover occurrence. -/
theorem C1_counterexample :
    (randomize_matrix 2 2 (Rat.divInt 1 2) sC1 gTwoEntries 0 5).map (fun gp =>
      (((rowMajor 2 2).filter fun p => decide (gp.1 p.1 p.2 = Cell.ENTRY)).length,
       gp.1 0 0, gp.1 1 1, gp.1 0 1, gp.1 1 0)) =
      some (2, Cell.ENTRY, Cell.ENTRY, Cell.EXIT, Cell.CLOSED) := by
  decide

/-- **C1** witness: the amended theorem applied to a concrete 2×2 pass. -/
theorem C1_witness :
    (2 ≤ 2) ∧
    ∃ pe px : Nat × Nat, pe ≠ px ∧
      (pe.1 < 2 ∧ pe.2 < 2 ∧ onBorder 2 2 pe.1 pe.2) ∧
      (px.1 < 2 ∧ px.2 < 2 ∧ onBorder 2 2 px.1 px.2) ∧
      ((randomize_matrix 2 2 (Rat.divInt 1 2) sW1 closedGrid 0 5).getD (closedGrid, 0)).1 pe.1 pe.2 =
        Cell.ENTRY ∧
      ((randomize_matrix 2 2 (Rat.divInt 1 2) sW1 closedGrid 0 5).getD (closedGrid, 0)).1 px.1 px.2 =
        Cell.EXIT ∧
      (∀ p ∈ rowMajor 2 2,
        ((randomize_matrix 2 2 (Rat.divInt 1 2) sW1 closedGrid 0 5).getD (closedGrid, 0)).1 p.1 p.2 =
          Cell.ENTRY → p = pe) ∧
      (∀ p ∈ rowMajor 2 2,
        ((randomize_matrix 2 2 (Rat.divInt 1 2) sW1 closedGrid 0 5).getD (closedGrid, 0)).1 p.1 p.2 =
          Cell.EXIT → p = px) := by
  refine ⟨by omega, ?_⟩
  have hrun : randomize_matrix 2 2 (Rat.divInt 1 2) sW1 closedGrid 0 5 =
      some (((randomize_matrix 2 2 (Rat.divInt 1 2) sW1 closedGrid 0 5).getD (closedGrid, 0)).1,
        ((randomize_matrix 2 2 (Rat.divInt 1 2) sW1 closedGrid 0 5).getD (closedGrid, 0)).2) :=
    option_eq_some_getD (by decide)
  exact C1_regenerate_unique_markers (by omega) (by omega) (by decide) (by decide) hrun

/-! ### Claim C2 -/

/-- **C2** (amended): every `OPEN` cell of a pass's result passed
    `is_valid_open_cell_placement` at its own decision time, that is,
    against the grid state holding the decisions of the cells earlier in
    row-major order (and the then-untouched later cells).  The final grid
    need not satisfy the constraint: later decisions can give an `OPEN`
    cell a second `OPEN` neighbour (see the counterexample). -/
theorem C2_open_valid_at_decision_time {R C : Nat} {ρ : ℚ} {rnd : Nat → Nat} {g0 : Grid}
    {i0 fuel : Nat} {G : Grid} {i' : Nat} {pre post : List (Nat × Nat)} {r c : Nat}
    (hrun : randomize_matrix R C ρ rnd g0 i0 fuel = some (G, i'))
    (hdec : rowMajor R C = pre ++ (r, c) :: post)
    (hopen : G r c = Cell.OPEN) :
    is_valid_open_cell_placement R C (fill_fold R C ρ rnd (g0, i0) pre).1 r c = true := by
  unfold randomize_matrix at hrun
  split at hrun
  · cases hrun
  case h_2 ex heq =>
    injection hrun with hpair
    injection hpair with hG hi
    subst hG
    obtain ⟨hxne, -⟩ := sample_exit_spec heq
    have hne : rnd (fill_pass R C ρ rnd g0 i0).2 % edge_length R C ≠ ex.1 :=
      fun hh => hxne hh.symm
    rw [place_entry_exit_at hne] at hopen
    split at hopen
    · cases hopen
    · split at hopen
      · cases hopen
      · rcases clear_markers_values R C (fill_pass R C ρ rnd g0 i0).1 r c with hcv | hcv
        · rw [hcv] at hopen
          exact fill_pass_open_valid hdec hopen
        · rw [hcv] at hopen
          cases hopen

/-- **C2** counterexample: a 5×5 pass whose result contains an `OPEN` cell
    (2,2), none of whose four neighbours is an `ENTRY`/`EXIT` marker, with
    **two** `OPEN` 4-neighbours — the later decisions at (2,3) and (3,2)
    each saw only one `OPEN` neighbour at their own decision time. -/
theorem C2_counterexample :
    (randomize_matrix 5 5 (Rat.divInt 1 2) sC2 closedGrid 0 5).map (fun gp =>
      (gp.1 2 2, gp.1 1 2, gp.1 3 2, gp.1 2 1, gp.1 2 3,
       count_adjacent_open_cells 5 5 gp.1 2 2)) =
      some (Cell.OPEN, Cell.CLOSED, Cell.OPEN, Cell.CLOSED, Cell.OPEN, 2) := by
  decide

/-- **C2** witness: the amended theorem applied to the cell (2,2) of the
    concrete 5×5 pass. -/
theorem C2_witness :
    rowMajor 5 5 = (rowMajor 5 5).take 12 ++ (2, 2) :: (rowMajor 5 5).drop 13 ∧
    GC2 2 2 = Cell.OPEN ∧
    is_valid_open_cell_placement 5 5
      (fill_fold 5 5 (Rat.divInt 1 2) sC2 (closedGrid, 0) ((rowMajor 5 5).take 12)).1 2 2 = true := by
  have hrun : randomize_matrix 5 5 (Rat.divInt 1 2) sC2 closedGrid 0 5 =
      some (GC2,
        ((randomize_matrix 5 5 (Rat.divInt 1 2) sC2 closedGrid 0 5).getD (closedGrid, 0)).2) :=
    option_eq_some_getD (by decide)
  have hdec : rowMajor 5 5 = (rowMajor 5 5).take 12 ++ (2, 2) :: (rowMajor 5 5).drop 13 := by
    decide
  have hopen : GC2 2 2 = Cell.OPEN := by decide
  exact ⟨hdec, hopen, C2_open_valid_at_decision_time hrun hdec hopen⟩

/-! ### Claim C3 -/

/-- **C3** (amended): only the *first* generation pass (`generate_matrix`)
    resets every in-range cell to `CLOSED`; consequently that pass's outcome
    — every produced cell value and the number of random draws consumed —
    is independent of the previous grid content.  Steady-state passes call
    `randomize_matrix` without the reset and are *not* independent of
    leftover content at cells later in scan order (see the
    counterexample). -/
theorem C3_first_pass_reset_independent (R C : Nat) (ρ : ℚ) (rnd : Nat → Nat)
    (g1 g2 : Grid) (i fuel : Nat) (r c : Nat) (hr : r < R) (hc : c < C) :
    (generate_matrix R C ρ rnd g1 i fuel).map (fun gp => gp.1 r c) =
      (generate_matrix R C ρ rnd g2 i fuel).map (fun gp => gp.1 r c) ∧
    (generate_matrix R C ρ rnd g1 i fuel).map (fun gp => gp.2) =
      (generate_matrix R C ρ rnd g2 i fuel).map (fun gp => gp.2) := by
  unfold generate_matrix
  refine randomize_congr ?_ r c hr hc
  intro a b ha hb
  unfold resetGrid
  rw [if_pos ⟨ha, hb⟩, if_pos ⟨ha, hb⟩]

/-- **C3** counterexample: a steady-state pass (`randomize_matrix` alone, as
    the generation worker's loop calls it — without a reset).  Two previous
    grids that agree everywhere except at (2,2), a cell *later* in row-major
    order than (1,2), produce different decisions at (1,2) under the same
    random stream: the leftover `OPEN` at (2,2) is visible to
    `is_valid_open_cell_placement` before it has been re-decided.  So a
    steady-state pass does not begin by resetting every cell, and decisions
    depend on leftover values. -/
theorem C3_counterexample :
    (randomize_matrix 3 3 (Rat.divInt 1 2) sC3 gLeftover 0 5).map (fun gp => gp.1 1 2) =
      some Cell.CLOSED ∧
    (randomize_matrix 3 3 (Rat.divInt 1 2) sC3 closedGrid 0 5).map (fun gp => gp.1 1 2) =
      some Cell.OPEN ∧
    (∀ p ∈ rowMajor 3 3, p ≠ (2, 2) → gLeftover p.1 p.2 = closedGrid p.1 p.2) := by
  decide

/-- **C3** witness: the amended theorem applied to two concrete 2×2 first
    passes from different previous grids. -/
theorem C3_witness :
    (0 < 2) ∧
    (generate_matrix 2 2 (Rat.divInt 1 2) sW1 gTwoEntries 0 5).map (fun gp => gp.1 0 0) =
      (generate_matrix 2 2 (Rat.divInt 1 2) sW1 closedGrid 0 5).map (fun gp => gp.1 0 0) ∧
    (generate_matrix 2 2 (Rat.divInt 1 2) sW1 gTwoEntries 0 5).map (fun gp => gp.2) =
      (generate_matrix 2 2 (Rat.divInt 1 2) sW1 closedGrid 0 5).map (fun gp => gp.2) :=
  ⟨by omega,
    (C3_first_pass_reset_independent 2 2 (Rat.divInt 1 2) sW1 gTwoEntries closedGrid 0 5 0 0
      (by omega) (by omega)).1,
    (C3_first_pass_reset_independent 2 2 (Rat.divInt 1 2) sW1 gTwoEntries closedGrid 0 5 0 0
      (by omega) (by omega)).2⟩

/-! ### Claim C4 -/

theorem find_path_found_start {R C : Nat} {g : Grid} {er ec : Nat} {p : Path}
    (hentry : findEntry R C g = some (er, ec))
    (hfound : (find_path R C g).1 = SearchOutcome.found p) :
    p.start_x = (er : Int) ∧ p.start_y = (ec : Int) := by
  unfold find_path at hfound
  rw [hentry] at hfound
  dsimp only at hfound
  by_cases hdf : (dfsFuel R C (R * C + 1) g (er : Int) (ec : Int)).1.found = true
  · rw [if_pos hdf] at hfound
    injection hfound with hp
    rcases dfs_start_shape R C (R * C + 1) g (er : Int) (ec : Int) with hf | hs
    · rw [hf] at hdf
      cases hdf
    · rw [← hp]
      exact hs
  · rw [if_neg hdf] at hfound
    cases hfound

/-- **C4** counterexample: the claim as stated — that on some grid with a
    found path the reported start coordinates differ from the entry cell —
    is false: each recursion level overwrites `start` with its own cell, and
    the outermost level (the located entry cell itself) overwrites it
    last. -/
theorem C4_counterexample : ¬C4_claim := by
  rintro ⟨R, C, g, er, ec, p, h1, h2, h3⟩
  exact h3 (find_path_found_start h1 h2)

/-- **C4** (amended): the `start` field is overwritten at every recursion
    level with that level's own coordinates, so the path returned to the
    caller carries the coordinates of the *outermost* frame — the located
    entry cell — and never differs from them. -/
theorem C4_start_equals_entry {R C : Nat} {g : Grid} {er ec : Nat} {p : Path}
    (hentry : findEntry R C g = some (er, ec))
    (hfound : (find_path R C g).1 = SearchOutcome.found p) :
    p.start_x = (er : Int) ∧ p.start_y = (ec : Int) :=
  find_path_found_start hentry hfound

/-- **C4** witness: a 2×2 search whose found path reports `start` equal to
    the entry cell (0,0). -/
theorem C4_witness :
    findEntry 2 2 gW4 = some (0, 0) ∧
    (find_path 2 2 gW4).1 = SearchOutcome.found (Path.mk 0 0 0 1 true) ∧
    ((Path.mk 0 0 0 1 true).start_x = ((0 : Nat) : Int) ∧
     (Path.mk 0 0 0 1 true).start_y = ((0 : Nat) : Int)) :=
  have h1 : findEntry 2 2 gW4 = some (0, 0) := by decide
  have h2 : (find_path 2 2 gW4).1 = SearchOutcome.found (Path.mk 0 0 0 1 true) := by decide
  ⟨h1, h2, C4_start_equals_entry h1 h2⟩

/-! ### Claim C5 -/

/-- **C5** (amended): the four neighbours are tried in the fixed order up,
    down, left, right, but a success does **not** stop exploration: all four
    recursive calls always run, each on the grid the previous one left, and
    the final grid is the one after the fourth call even when the first
    direction already succeeded.  Only the *reported* path short-circuits:
    it takes the first direction, in that order, that reported success. -/
theorem C5_all_directions_explored {R C : Nat} (f : Nat) (g : Grid) (row col : Int)
    (hb : ¬(row < 0 ∨ (R : Int) ≤ row ∨ col < 0 ∨ (C : Int) ≤ col))
    (hexit : g row.toNat col.toNat ≠ Cell.EXIT)
    (hcv : ¬(g row.toNat col.toNat = Cell.CLOSED ∨ g row.toNat col.toNat = Cell.VISITED))
    (hU : (dfsFuel R C f (setCell g row.toNat col.toNat Cell.VISITED)
      (row - 1) col).1.found = true) :
    (dfsFuel R C (f + 1) g row col).1 =
      Path.mk row col
        (dfsFuel R C f (setCell g row.toNat col.toNat Cell.VISITED) (row - 1) col).1.end_x
        (dfsFuel R C f (setCell g row.toNat col.toNat Cell.VISITED) (row - 1) col).1.end_y
        true ∧
    (dfsFuel R C (f + 1) g row col).2 =
      (dfsFuel R C f
        (dfsFuel R C f
          (dfsFuel R C f
            (dfsFuel R C f (setCell g row.toNat col.toNat Cell.VISITED) (row - 1) col).2
            (row + 1) col).2
          row (col - 1)).2
        row (col + 1)).2 := by
  rw [dfsFuel_succ_expand f g row col hb hexit hcv]
  constructor
  · dsimp only
    rw [if_pos hU]
  · rfl

/-- **C5** counterexample: in `g5` the entry (1,0) succeeds through its
    *first* direction (up is the exit), yet the cell (1,1) — reachable only
    through the *last* direction, right — is still explored and left
    `VISITED` in the final grid, refuting "the remaining directions … are
    not explored at all". -/
theorem C5_counterexample :
    (find_path 3 3 g5).1 = SearchOutcome.found (Path.mk 1 0 0 0 true) ∧
    (find_path 3 3 g5).2 1 1 = Cell.VISITED ∧
    g5 0 0 = Cell.EXIT ∧ g5 2 0 = Cell.CLOSED ∧ g5 1 1 = Cell.OPEN := by
  decide

/-- **C5** witness: the amended theorem at the entry cell of `g5`, where the
    up direction succeeds immediately. -/
theorem C5_witness :
    (dfsFuel 3 3 9 (setCell g5 (1 : Int).toNat (0 : Int).toNat Cell.VISITED)
      ((1 : Int) - 1) (0 : Int)).1.found = true ∧
    ((dfsFuel 3 3 (9 + 1) g5 (1 : Int) (0 : Int)).1 =
      Path.mk (1 : Int) (0 : Int)
        (dfsFuel 3 3 9 (setCell g5 (1 : Int).toNat (0 : Int).toNat Cell.VISITED)
          ((1 : Int) - 1) (0 : Int)).1.end_x
        (dfsFuel 3 3 9 (setCell g5 (1 : Int).toNat (0 : Int).toNat Cell.VISITED)
          ((1 : Int) - 1) (0 : Int)).1.end_y
        true ∧
    (dfsFuel 3 3 (9 + 1) g5 (1 : Int) (0 : Int)).2 =
      (dfsFuel 3 3 9
        (dfsFuel 3 3 9
          (dfsFuel 3 3 9
            (dfsFuel 3 3 9 (setCell g5 (1 : Int).toNat (0 : Int).toNat Cell.VISITED)
              ((1 : Int) - 1) (0 : Int)).2
            ((1 : Int) + 1) (0 : Int)).2
          (1 : Int) ((0 : Int) - 1)).2
        (1 : Int) ((0 : Int) + 1)).2) :=
  ⟨by decide,
    C5_all_directions_explored 9 g5 1 0 (by decide) (by decide) (by decide) (by decide)⟩

/-! ### Claim C6 -/

/-- **C6**: the search never revisits a cell — each expanded cell is marked
    `VISITED` before its neighbours are explored and `VISITED` cells are
    rejected — so it expands at most `R * C` cells and terminates: any fuel
    beyond `R * C + 1` produces exactly the same result (path and grid)
    as fuel `R * C + 1`. -/
theorem C6_dfs_terminates {R C : Nat} (f : Nat) (g : Grid) (row col : Int)
    (hf : R * C + 1 ≤ f) :
    dfsFuel R C f g row col = dfsFuel R C (R * C + 1) g row col := by
  have h := activeCount_le R C g
  exact dfsFuel_stable R C f g row col (by omega) (by omega)

/-- **C6** witness: the termination bound applied to a concrete 2×2 grid. -/
theorem C6_witness :
    2 * 2 + 1 ≤ 6 ∧
    dfsFuel 2 2 6 closedGrid 0 0 = dfsFuel 2 2 (2 * 2 + 1) closedGrid 0 0 :=
  ⟨by omega, C6_dfs_terminates 6 closedGrid 0 0 (by omega)⟩

/-! ### Claim C7 -/

/-- **C7**: on a grid with no `ENTRY` marker the search pass reports the
    entry-not-found outcome, which is a distinct outcome from the no-path
    outcome reported when an entry exists but no traversal reaches the
    exit. -/
theorem C7_entry_not_found {R C : Nat} {g : Grid}
    (h : ∀ p ∈ rowMajor R C, g p.1 p.2 ≠ Cell.ENTRY) :
    (find_path R C g).1 = SearchOutcome.entryNotFound ∧
    SearchOutcome.entryNotFound ≠ SearchOutcome.noPathFound := by
  refine ⟨?_, fun hh => SearchOutcome.noConfusion hh⟩
  rw [find_path_of_no_entry h]

/-- **C7** witness: the all-`CLOSED` 2×2 grid has no entry marker. -/
theorem C7_witness :
    (∀ p ∈ rowMajor 2 2, closedGrid p.1 p.2 ≠ Cell.ENTRY) ∧
    ((find_path 2 2 closedGrid).1 = SearchOutcome.entryNotFound ∧
     SearchOutcome.entryNotFound ≠ SearchOutcome.noPathFound) :=
  ⟨by decide, C7_entry_not_found (by decide)⟩

/-! ### Claim C8 -/

theorem randomize_zero_shape {R C : Nat} (hR : 2 ≤ R) (hC : 2 ≤ C)
    {rnd : Nat → Nat} {g0 G : Grid} {i0 fuel i' : Nat}
    (hnz : ∀ k, rnd k ≠ 0)
    (hg0 : ∀ p ∈ rowMajor R C, g0 p.1 p.2 = Cell.CLOSED)
    (hrun : randomize_matrix R C 0 rnd g0 i0 fuel = some (G, i')) :
    ∃ pe px : Nat × Nat, pe ≠ px ∧
      (pe.1 < R ∧ pe.2 < C ∧ onBorder R C pe.1 pe.2) ∧
      (px.1 < R ∧ px.2 < C ∧ onBorder R C px.1 px.2) ∧
      G pe.1 pe.2 = Cell.ENTRY ∧ G px.1 px.2 = Cell.EXIT ∧
      ∀ p ∈ rowMajor R C, p ≠ pe → p ≠ px → G p.1 p.2 = Cell.CLOSED := by
  unfold randomize_matrix at hrun
  split at hrun
  · cases hrun
  next ex heq =>
    obtain ⟨x1, x2⟩ := ex
    injection hrun with hpair
    injection hpair with hG hi
    subst hG
    obtain ⟨hxne, hxlt⟩ := sample_exit_spec heq
    have hedge : 0 < edge_length R C := by
      unfold edge_length
      omega
    have hep_lt : rnd (fill_pass R C 0 rnd g0 i0).2 % edge_length R C < edge_length R C :=
      Nat.mod_lt _ hedge
    have hne : rnd (fill_pass R C 0 rnd g0 i0).2 % edge_length R C ≠ x1 :=
      fun hh => hxne hh.symm
    have hfillC : ∀ p ∈ rowMajor R C, (fill_pass R C 0 rnd g0 i0).1 p.1 p.2 = Cell.CLOSED := by
      intro p hp
      obtain ⟨hr5, hc5⟩ := mem_rowMajor.1 hp
      refine fill_pass_closed hr5 hc5 ?_ ?_
      · intro hh
        rcases hh.2 with h2 | h2 <;> rw [hg0 p hp] at h2 <;> cases h2
      · exact fun k => openDraw_zero (hnz k)
    have hclearC : ∀ p ∈ rowMajor R C,
        clear_markers R C (fill_pass R C 0 rnd g0 i0).1 p.1 p.2 = Cell.CLOSED := by
      intro p hp
      rcases clear_markers_values R C (fill_pass R C 0 rnd g0 i0).1 p.1 p.2 with h | h
      · rw [h]
        exact hfillC p hp
      · exact h
    have hnoE : ∀ p ∈ rowMajor R C,
        clear_markers R C (fill_pass R C 0 rnd g0 i0).1 p.1 p.2 ≠ Cell.ENTRY := by
      intro p hp hh
      rw [hclearC p hp] at hh
      cases hh
    have hnoX : ∀ p ∈ rowMajor R C,
        clear_markers R C (fill_pass R C 0 rnd g0 i0).1 p.1 p.2 ≠ Cell.EXIT := by
      intro p hp hh
      rw [hclearC p hp] at hh
      cases hh
    obtain ⟨pe, px, h1, h2, h3, h4, h5, h6, h7⟩ :=
      place_markers_spec hR hC hep_lt (hxlt hedge) hne hnoE hnoX
    obtain ⟨h2a, h2b⟩ := mem_borderList.1 h2
    obtain ⟨h3a, h3b⟩ := mem_borderList.1 h3
    refine ⟨pe, px, h1, ⟨h2a.1, h2a.2, h2b⟩, ⟨h3a.1, h3a.2, h3b⟩, h4, h5, ?_⟩
    intro p hp hppe hppx
    by_cases hc1 : rnd (fill_pass R C 0 rnd g0 i0).2 % edge_length R C <
        (borderList R C).length ∧
        (borderList R C).getD (rnd (fill_pass R C 0 rnd g0 i0).2 % edge_length R C) (0, 0) =
          (p.1, p.2)
    · exact absurd (h6 p hp (by rw [place_entry_exit_at hne, if_pos hc1])) hppe
    · by_cases hc2 : x1 < (borderList R C).length ∧
          (borderList R C).getD x1 (0, 0) = (p.1, p.2)
      · exact absurd (h7 p hp (by rw [place_entry_exit_at hne, if_neg hc1, if_pos hc2])) hppx
      · rw [place_entry_exit_at hne, if_neg hc1, if_neg hc2]
        exact hclearC p hp

/-- **C8** counterexample: the open-cell test is `rand() / RAND_MAX <=
    density`, a non-strict comparison, so whenever `rand()` returns exactly
    0 the ratio 0 ≤ 0 holds even at density 0.0 and the cell opens: with
    stream `sC8` (first draw 0) the generated 5×5 maze has cell (0,0)
    `OPEN`, refuting "every non-marker cell of the stored maze is CLOSED". -/
theorem C8_counterexample :
    (generate_matrix 5 5 0 sC8 closedGrid 0 5).map
      (fun gp => (gp.1 0 0, gp.1 4 4, gp.1 0 1)) =
      some (Cell.OPEN, Cell.ENTRY, Cell.EXIT) := by
  decide

/-- **C8** (amended): with density 0.0, provided no draw of the random
    stream is exactly 0 (the `rand() = 0` draw opens a cell even at density
    0.0 because the comparison is non-strict), a completed generation pass
    yields a maze that is all `CLOSED` except exactly one border `ENTRY`
    and one border `EXIT`. -/
theorem C8_density_zero_all_closed {rnd : Nat → Nat} {g0 G : Grid} {i0 fuel i' : Nat}
    (hnz : ∀ k, rnd k ≠ 0)
    (hrun : generate_matrix 5 5 0 rnd g0 i0 fuel = some (G, i')) :
    ∃ pe px : Nat × Nat, pe ≠ px ∧
      (pe.1 < 5 ∧ pe.2 < 5 ∧ onBorder 5 5 pe.1 pe.2) ∧
      (px.1 < 5 ∧ px.2 < 5 ∧ onBorder 5 5 px.1 px.2) ∧
      G pe.1 pe.2 = Cell.ENTRY ∧ G px.1 px.2 = Cell.EXIT ∧
      ∀ p ∈ rowMajor 5 5, p ≠ pe → p ≠ px → G p.1 p.2 = Cell.CLOSED := by
  refine randomize_zero_shape (by decide) (by decide) hnz ?_ hrun
  intro p hp
  obtain ⟨hr5, hc5⟩ := mem_rowMajor.1 hp
  unfold resetGrid
  rw [if_pos ⟨hr5, hc5⟩]

/-- **C8** witness: the amended theorem at the never-zero stream `sW8`. -/
theorem C8_witness :
    (∀ k, sW8 k ≠ 0) ∧
    (∃ pe px : Nat × Nat, pe ≠ px ∧
      (pe.1 < 5 ∧ pe.2 < 5 ∧ onBorder 5 5 pe.1 pe.2) ∧
      (px.1 < 5 ∧ px.2 < 5 ∧ onBorder 5 5 px.1 px.2) ∧
      ((generate_matrix 5 5 0 sW8 closedGrid 0 5).getD (closedGrid, 0)).1 pe.1 pe.2 =
        Cell.ENTRY ∧
      ((generate_matrix 5 5 0 sW8 closedGrid 0 5).getD (closedGrid, 0)).1 px.1 px.2 =
        Cell.EXIT ∧
      ∀ p ∈ rowMajor 5 5, p ≠ pe → p ≠ px →
        ((generate_matrix 5 5 0 sW8 closedGrid 0 5).getD (closedGrid, 0)).1 p.1 p.2 =
          Cell.CLOSED) :=
  have hnz : ∀ k, sW8 k ≠ 0 := fun k => by
    unfold sW8
    split <;> decide
  ⟨hnz, C8_density_zero_all_closed hnz (option_eq_some_getD (by decide))⟩

/-! ### Claim C10 -/

theorem dfs_marks_visited {R C : Nat} (f : Nat) (g : Grid) (row col : Int)
    (hb : ¬(row < 0 ∨ (R : Int) ≤ row ∨ col < 0 ∨ (C : Int) ≤ col))
    (hexit : g row.toNat col.toNat ≠ Cell.EXIT)
    (hcv : ¬(g row.toNat col.toNat = Cell.CLOSED ∨ g row.toNat col.toNat = Cell.VISITED)) :
    (dfsFuel R C (f + 1) g row col).2 row.toNat col.toNat = Cell.VISITED := by
  rw [dfsFuel_succ_expand f g row col hb hexit hcv]
  exact evolves_preserves_visited (dfs_evolves R C f _ row (col + 1))
    (evolves_preserves_visited (dfs_evolves R C f _ row (col - 1))
      (evolves_preserves_visited (dfs_evolves R C f _ (row + 1) col)
        (evolves_preserves_visited (dfs_evolves R C f _ (row - 1) col)
          (setCell_self g row.toNat col.toNat Cell.VISITED))))

/-- **C10**: a search pass marks the located entry cell `VISITED` (every
    expanded cell is overwritten before recursing), the grid it leaves
    behind holds no `ENTRY` cell at all when the entry was unique, `EXIT`
    cells survive untouched, and a second search pass on that grid
    therefore reports the entry-not-found outcome. -/
theorem C10_search_consumes_entry {R C : Nat} {g : Grid} {er ec qr qc : Nat}
    (hentry : findEntry R C g = some (er, ec))
    (huniq : ∀ p ∈ rowMajor R C, g p.1 p.2 = Cell.ENTRY → p = (er, ec))
    (hqr : qr < R) (hqc : qc < C) (hqx : g qr qc = Cell.EXIT) :
    (find_path R C g).2 er ec = Cell.VISITED ∧
    (∀ p ∈ rowMajor R C, (find_path R C g).2 p.1 p.2 ≠ Cell.ENTRY) ∧
    (find_path R C g).2 qr qc = Cell.EXIT ∧
    (find_path R C (find_path R C g).2).1 = SearchOutcome.entryNotFound := by
  have her : er < R := (findEntry_some_spec hentry).1
  have hec : ec < C := (findEntry_some_spec hentry).2.1
  have hE : g er ec = Cell.ENTRY := (findEntry_some_spec hentry).2.2.2
  have hgrid : (find_path R C g).2 = (dfsFuel R C (R * C + 1) g (er : Int) (ec : Int)).2 := by
    unfold find_path
    rw [hentry]
  have hbnds : ¬((er : Int) < 0 ∨ (R : Int) ≤ (er : Int) ∨ (ec : Int) < 0 ∨
      (C : Int) ≤ (ec : Int)) := by
    intro h
    rcases h with h | h | h | h <;> omega
  have ht1 : ((er : Int)).toNat = er := by omega
  have ht2 : ((ec : Int)).toNat = ec := by omega
  have hexit2 : g ((er : Int)).toNat ((ec : Int)).toNat ≠ Cell.EXIT := by
    rw [ht1, ht2, hE]
    intro hh
    cases hh
  have hcv2 : ¬(g ((er : Int)).toNat ((ec : Int)).toNat = Cell.CLOSED ∨
      g ((er : Int)).toNat ((ec : Int)).toNat = Cell.VISITED) := by
    rw [ht1, ht2, hE]
    rintro (hh | hh) <;> cases hh
  have hvis : (dfsFuel R C (R * C + 1) g (er : Int) (ec : Int)).2 er ec = Cell.VISITED := by
    have h := dfs_marks_visited (R * C) g (er : Int) (ec : Int) hbnds hexit2 hcv2
    rw [ht1, ht2] at h
    exact h
  have hnoE : ∀ p ∈ rowMajor R C,
      (dfsFuel R C (R * C + 1) g (er : Int) (ec : Int)).2 p.1 p.2 ≠ Cell.ENTRY := by
    intro p hp habs
    rcases dfs_evolves R C (R * C + 1) g (er : Int) (ec : Int) p.1 p.2 with hh | hh
    · have hgp : g p.1 p.2 = Cell.ENTRY := by
        rw [← hh]
        exact habs
      have hpe := huniq p hp hgp
      have hvp : (dfsFuel R C (R * C + 1) g (er : Int) (ec : Int)).2 p.1 p.2 = Cell.VISITED := by
        rw [hpe]
        exact hvis
      rw [hvp] at habs
      cases habs
    · rw [hh.1] at habs
      cases habs
  have hq : (dfsFuel R C (R * C + 1) g (er : Int) (ec : Int)).2 qr qc = g qr qc :=
    evolves_preserves_nonexpandable (dfs_evolves R C (R * C + 1) g (er : Int) (ec : Int))
      (by rw [hqx]; intro hx; exact hx.1 rfl)
  refine ⟨?_, ?_, ?_, ?_⟩
  · rw [hgrid]
    exact hvis
  · rw [hgrid]
    exact hnoE
  · rw [hgrid, hq]
    exact hqx
  · rw [hgrid, find_path_of_no_entry hnoE]

/-- **C10** witness: on `gW10` (entry (0,0), exit (1,1)) the first search
    consumes the entry and the second search reports entry-not-found. -/
theorem C10_witness :
    findEntry 2 2 gW10 = some (0, 0) ∧
    ((find_path 2 2 gW10).2 0 0 = Cell.VISITED ∧
     (∀ p ∈ rowMajor 2 2, (find_path 2 2 gW10).2 p.1 p.2 ≠ Cell.ENTRY) ∧
     (find_path 2 2 gW10).2 1 1 = Cell.EXIT ∧
     (find_path 2 2 (find_path 2 2 gW10).2).1 = SearchOutcome.entryNotFound) :=
  ⟨by decide,
    C10_search_consumes_entry (by decide) (by decide) (by decide) (by decide) (by decide)⟩

end MazeLock
